import Mathlib

/-!
Verification of the blender file loader (src/game/loader.py).

The loader is embedded shallowly: byte strings become `List Nat`, the file
handle becomes an explicit `(data, position)` pair, Python's slice /
`bytes.split` / `struct` semantics are spelled out (signed two's-complement
decoding, clamped slices, non-negative remainders), and every exception the
code can raise becomes a constructor of an error type returned through
`Except`.
-/

namespace Loader

set_option maxRecDepth 10000

/-- Byte order selected by the file header (source: `BlenderFile.Endian`,
`'<'` for little, `'>'` for big). -/
inductive Endian
  | Little
  | Big
deriving DecidableEq

/-- Pointer width selected by the file header (source: `BlenderFile.Arch`,
struct code `'I'` for 32-bit, `'Q'` for 64-bit). -/
inductive Arch
  | X32
  | X64
deriving DecidableEq

/-- Failure kinds of the loader: the three distinct
`BlenderFileImportException` messages raised by `_parse_index` and
`_parse_blocks`, plus `struct.error` raised by the fixed-size codecs, plus
fuel exhaustion of the embedded scan loop (never reachable from
`parse_blocks`, which supplies sufficient fuel). -/
inductive BErr
  | malformedIndex
  | missingIndex
  | missingTerminator
  | structError
  | outOfFuel
deriving DecidableEq

deriving instance DecidableEq for Except

/-- Python slice `l[i:j]` on a byte string: negative endpoints count from
the end of the string, and both endpoints are clamped into range. -/
def pySlice (l : List Nat) (i j : Int) : List Nat :=
  let L : Int := l.length
  let a : Int := if i < 0 then max 0 (L + i) else min i L
  let b : Int := if j < 0 then max 0 (L + j) else min j L
  if a < b then (l.drop a.toNat).take (b - a).toNat else []

/-- Python slice `l[i:]`. -/
def pySliceFrom (l : List Nat) (i : Int) : List Nat :=
  pySlice l i l.length

/-- The `align` helper of `_parse_index`: with `tmp = offset % 4`, advance
`offset` by `0` if `tmp == 0` and by `4 - tmp` otherwise.  Python's `%` on a
positive divisor returns a value in `[0, 4)`, exactly as `Int.emod` does. -/
def pyAlign (o : Int) : Int :=
  if o % 4 = 0 then o else o + (4 - o % 4)

/-- Value of a byte string read little-endian. -/
def leVal : List Nat → Nat
  | [] => 0
  | b :: bs => b + 256 * leVal bs

/-- Value of a byte string as an unsigned integer in byte order `e`. -/
def bytesToNat (e : Endian) (bs : List Nat) : Nat :=
  match e with
  | .Little => leVal bs
  | .Big => leVal bs.reverse

/-- Two's-complement reinterpretation of a `w`-bit unsigned value, as
performed by the signed struct codes `'i'` (w = 32) and `'h'` (w = 16). -/
def toSigned (w : Nat) (u : Nat) : Int :=
  if u < 2 ^ (w - 1) then (u : Int) else (u : Int) - 2 ^ w

/-- `struct.unpack_from` of a single `w`-byte field at byte offset `off`:
a negative offset counts from the end of the buffer, and an offset leaving
fewer than `w` bytes raises `struct.error`. -/
def unpackFromRaw (e : Endian) (w : Nat) (data : List Nat) (off : Int) :
    Except BErr Nat :=
  let r : Int := if off < 0 then (data.length : Int) + off else off
  if 0 ≤ r ∧ r + w ≤ (data.length : Int) then
    .ok (bytesToNat e ((data.drop r.toNat).take w))
  else
    .error .structError

/-- `Int.unpack_from(data, off).val` (struct code `'i'`). -/
def unpack32 (e : Endian) (data : List Nat) (off : Int) : Except BErr Int :=
  (unpackFromRaw e 4 data off).map (toSigned 32)

/-- `Short.unpack_from(data, off).val` (struct code `'h'`). -/
def unpack16 (e : Endian) (data : List Nat) (off : Int) : Except BErr Int :=
  (unpackFromRaw e 2 data off).map (toSigned 16)

/-- The magic tag `b'BLENDER'`. -/
def blenderTag : List Nat := [66, 76, 69, 78, 68, 69, 82]

/-- Source: `BlenderFile.VersionInfo`; each component is a Python integer
obtained as a raw header byte minus 48. -/
structure VersionInfo where
  major : Int
  minor : Int
  rev : Int
deriving DecidableEq

/-- Source: `BlenderFile.BlendFileInfo`. -/
structure BlendFileInfo where
  version : VersionInfo
  arch : Arch
  endian : Endian
deriving DecidableEq

/-- `BlenderFile.parse_header`: validate the 12-byte header and extract
version, pointer width and byte order.  `45 = '-'`, `95 = '_'`,
`118 = 'v'`, `86 = 'V'`. -/
def parse_header (header : List Nat) : Option BlendFileInfo :=
  if header.length ≠ 12 ∨ header.take 7 ≠ blenderTag then
    none
  else
    let archB := pySlice header 7 8
    let endianB := pySlice header 8 9
    let version := (header.drop 9).map (fun x => (x : Int) - 48)
    let arch? : Option Arch :=
      if archB = [45] then some .X64
      else if archB = [95] then some .X32
      else none
    let endian? : Option Endian :=
      if endianB = [118] then some .Little
      else if endianB = [86] then some .Big
      else none
    match arch?, endian?, version with
    | some a, some en, [ma, mi, re] => some ⟨⟨ma, mi, re⟩, a, en⟩
    | _, _, _ => none

/-- The sub-format tag `b'SDNANAME'`. -/
def sdnaTag : List Nat := [83, 68, 78, 65, 78, 65, 77, 69]

/-- The sub-format tag `b'TYPE'`. -/
def typeTag : List Nat := [84, 89, 80, 69]

/-- The sub-format tag `b'TLEN'`. -/
def tlenTag : List Nat := [84, 76, 69, 78]

/-- The sub-format tag `b'STRC'`. -/
def strcTag : List Nat := [83, 84, 82, 67]

/-- `bytes.split(b'\x00', m)` for a non-negative split bound `m`: cut at
most `m` times at the null byte; a missing separator ends the split. -/
def splitNullLimited : Nat → List Nat → List (List Nat)
  | 0, bs => [bs]
  | m + 1, bs =>
    let pre := bs.takeWhile (fun b => b ≠ 0)
    match bs.drop pre.length with
    | [] => [bs]
    | _ :: tail => pre :: splitNullLimited m tail

/-- `bytes.split(b'\x00', m)` with a Python `maxsplit` argument: a negative
bound means unlimited splitting (`bs.length` cuts always suffice). -/
def pySplitNull (bs : List Nat) (m : Int) : List (List Nat) :=
  splitNullLimited (if m < 0 then bs.length else m.toNat) bs

/-- Decode consecutive 16-bit signed integers (`Short.iter_unpack` body):
pairs of bytes in order, any trailing odd byte ignored (ruled out by the
length check in `iterUnpack16`). -/
def shorts16 (e : Endian) : List Nat → List Int
  | a :: b :: rest => toSigned 16 (bytesToNat e [a, b]) :: shorts16 e rest
  | _ => []

/-- `Short.iter_unpack(buf)`: `struct.error` unless the buffer length is a
multiple of the 2-byte item size, else the list of decoded shorts. -/
def iterUnpack16 (e : Endian) (bs : List Nat) : Except BErr (List Int) :=
  if bs.length % 2 = 0 then .ok (shorts16 e bs) else .error .structError

/-- `StructField.unpack_from(data, off)` (struct code `'hh'`, a single
4-byte record decoded as two consecutive signed shorts). -/
def unpackStructField (e : Endian) (data : List Nat) (off : Int) :
    Except BErr (Int × Int) :=
  let r : Int := if off < 0 then (data.length : Int) + off else off
  if 0 ≤ r ∧ r + 4 ≤ (data.length : Int) then
    .ok (toSigned 16 (bytesToNat e ((data.drop r.toNat).take 2)),
         toSigned 16 (bytesToNat e ((data.drop (r.toNat + 2)).take 2)))
  else
    .error .structError

/-- Source: `BlenderFile.BlendStructRef`; `name` holds the structure's type
index (a decoded signed short), `fields` its `(type, name)` index pairs. -/
structure BlendStructRef where
  name : Int
  fields : List (Int × Int)
deriving DecidableEq

/-- Source: `BlenderFile.BlendIndex` — the decoded schema: names, `(typeName,
byteSize)` pairs, and structure layouts, each in on-disk order. -/
structure BlendIndex where
  names : List (List Nat)
  types : List (List Nat × Int)
  structures : List BlendStructRef
deriving DecidableEq

/-- Sum of the byte lengths of a list of byte strings
(`sum(len(n) for n in names)`). -/
def namesByteLen (names : List (List Nat)) : Nat :=
  (names.map List.length).sum

/-- Result of the name section of `_parse_index` (lines 150-159): the
decoded names together with the running offset aligned after step 2. -/
structure NamesStage where
  names : List (List Nat)
  off : Int
deriving DecidableEq

/-- Result of the type-name section (lines 160-167). -/
structure TypesStage where
  names : List (List Nat)
  type_names : List (List Nat)
  type_count : Int
  off : Int
deriving DecidableEq

/-- Result of the type-length section (lines 168-177). -/
structure TlenStage where
  names : List (List Nat)
  types : List (List Nat × Int)
  off : Int
deriving DecidableEq

/-- Step 1-2 of `_parse_index`: require `data[0:8] == b'SDNANAME'`, read the
name count at offset 8, split the remainder into that many null-terminated
names, and advance the offset past the count field, the names and their
terminators, aligned to 4 bytes. -/
def readNames (e : Endian) (data : List Nat) : Except BErr NamesStage :=
  if pySlice data 0 8 ≠ sdnaTag then
    .error .malformedIndex
  else
    (unpack32 e data 8).bind fun name_count =>
      let names := (pySplitNull (pySliceFrom data 12) name_count).dropLast
      .ok ⟨names, pyAlign (8 + ((namesByteLen names : Int) + names.length + 4))⟩

/-- Step 3 of `_parse_index`: require `b'TYPE'` at the running offset, read
the type count and the null-terminated type names, and advance the aligned
offset past tag, count, names and terminators. -/
def readTypeNames (e : Endian) (data : List Nat) : Except BErr TypesStage :=
  (readNames e data).bind fun ns =>
    if pySlice data ns.off (ns.off + 4) ≠ typeTag then
      .error .malformedIndex
    else
      (unpack32 e data (ns.off + 4)).bind fun type_count =>
        let type_names := (pySplitNull (pySliceFrom data (ns.off + 8)) type_count).dropLast
        .ok ⟨ns.names, type_names, type_count,
          pyAlign (ns.off + ((namesByteLen type_names : Int) + type_names.length + 8))⟩

/-- Step 4 of `_parse_index`: require `b'TLEN'` at the running offset, decode
`type_count` 16-bit sizes, zip them with the type names, and advance the
aligned offset past the tag and the size table. -/
def readTlen (e : Endian) (data : List Nat) : Except BErr TlenStage :=
  (readTypeNames e data).bind fun ts =>
    if pySlice data ts.off (ts.off + 4) ≠ tlenTag then
      .error .malformedIndex
    else
      let o := ts.off + 4
      let tdl : Int := 2 * ts.type_count
      (iterUnpack16 e (pySlice data o (o + tdl))).bind fun type_sizes =>
        .ok ⟨ts.names, ts.type_names.zip type_sizes, pyAlign (o + tdl)⟩

/-- The inner field loop of step 5: `field_count` records of two signed
shorts, the offset advancing by 4 per field. -/
def parseFieldsLoop (e : Endian) (data : List Nat) :
    Nat → Int → Except BErr (List (Int × Int) × Int)
  | 0, o => .ok ([], o)
  | k + 1, o =>
    (unpackStructField e data o).bind fun f =>
      (parseFieldsLoop e data k (o + 4)).bind fun p =>
        .ok (f :: p.1, p.2)

/-- The outer structure loop of step 5: per structure a 16-bit type index,
a 16-bit field count, then that many field records. -/
def parseStructsLoop (e : Endian) (data : List Nat) :
    Nat → Int → Except BErr (List BlendStructRef × Int)
  | 0, o => .ok ([], o)
  | n + 1, o =>
    (unpack16 e data o).bind fun ti =>
      (unpack16 e data (o + 2)).bind fun fc =>
        (parseFieldsLoop e data fc.toNat (o + 4)).bind fun fp =>
          (parseStructsLoop e data n fp.2).bind fun sp =>
            .ok (⟨ti, fp.1⟩ :: sp.1, sp.2)

/-- `BlenderFile._parse_index` applied to the payload bytes it read: steps
1-4 via the stage functions, then the `b'STRC'` check, the structure count
at `offset - 4` after advancing by 8, and the structure loop. -/
def parseIndexPayload (e : Endian) (data : List Nat) : Except BErr BlendIndex :=
  (readTlen e data).bind fun tl =>
    if pySlice data tl.off (tl.off + 4) ≠ strcTag then
      .error .malformedIndex
    else
      (unpack32 e data (tl.off + 4)).bind fun structure_count =>
        (parseStructsLoop e data structure_count.toNat (tl.off + 8)).bind fun sp =>
          .ok ⟨tl.names, tl.types, sp.1⟩

/-- Little-endian byte encoding of a `w`-byte unsigned value. -/
def encLE : Nat → Nat → List Nat
  | 0, _ => []
  | w + 1, v => v % 256 :: encLE w (v / 256)

/-- Byte encoding of a `w`-byte unsigned value in byte order `e`. -/
def encU (e : Endian) (w v : Nat) : List Nat :=
  match e with
  | .Little => encLE w v
  | .Big => (encLE w v).reverse

/-- A name as stored on disk: the bytes followed by a null terminator. -/
def encName (n : List Nat) : List Nat := n ++ [0]

/-- The concatenated null-terminated names of a name section. -/
def namesBlob (names : List (List Nat)) : List Nat :=
  (names.map encName).flatten

/-- Padding bringing a section of length `n` up to 4-byte alignment. -/
def pad4 (n : Nat) : List Nat := List.replicate ((4 - n % 4) % 4) 0

/-- `align4n n` is `n` rounded up to the next multiple of 4 (the `Nat`
mirror of `pyAlign`). -/
def align4n (n : Nat) : Nat := n + (4 - n % 4) % 4

/-- The 16-bit size table of the TLEN section. -/
def shortsBlob (e : Endian) (types : List (List Nat × Nat)) : List Nat :=
  (types.map (fun t => encU e 2 t.2)).flatten

/-- The encoded field records of one structure. -/
def fieldsBlob (e : Endian) (fields : List (Nat × Nat)) : List Nat :=
  (fields.map (fun f => encU e 2 f.1 ++ encU e 2 f.2)).flatten

/-- One encoded structure layout: type index, field count, field records. -/
def encStruct (e : Endian) (s : Nat × List (Nat × Nat)) : List Nat :=
  encU e 2 s.1 ++ encU e 2 s.2.length ++ fieldsBlob e s.2

/-- The concatenated encoded structure layouts of the STRC section. -/
def structsBlob (e : Endian) (structs : List (Nat × List (Nat × Nat))) : List Nat :=
  (structs.map (encStruct e)).flatten

/-- The unpadded SDNANAME section: tag, name count, null-terminated names. -/
def sec1 (e : Endian) (names : List (List Nat)) : List Nat :=
  sdnaTag ++ encU e 4 names.length ++ namesBlob names

/-- The SDNANAME section padded to 4-byte alignment. -/
def sec1p (e : Endian) (names : List (List Nat)) : List Nat :=
  sec1 e names ++ pad4 (sec1 e names).length

/-- The unpadded TYPE section: tag, type count, null-terminated type names. -/
def sec2 (e : Endian) (types : List (List Nat × Nat)) : List Nat :=
  typeTag ++ encU e 4 types.length ++ namesBlob (types.map Prod.fst)

/-- The TYPE section padded to 4-byte alignment. -/
def sec2p (e : Endian) (types : List (List Nat × Nat)) : List Nat :=
  sec2 e types ++ pad4 (sec2 e types).length

/-- The unpadded TLEN section: tag and 16-bit size table. -/
def sec3 (e : Endian) (types : List (List Nat × Nat)) : List Nat :=
  tlenTag ++ shortsBlob e types

/-- The TLEN section padded to 4-byte alignment. -/
def sec3p (e : Endian) (types : List (List Nat × Nat)) : List Nat :=
  sec3 e types ++ pad4 (sec3 e types).length

/-- The STRC section: tag, structure count, structure layouts. -/
def sec4 (e : Endian) (structs : List (Nat × List (Nat × Nat))) : List Nat :=
  strcTag ++ encU e 4 structs.length ++ structsBlob e structs

/-- A schema payload laid out per the grammar of spec section 4.3:
`SDNANAME` + name count + null-terminated names, 4-byte aligned; `TYPE` +
type count + null-terminated type names, aligned; `TLEN` + one 16-bit size
per type, aligned; `STRC` + structure count + structure layouts. -/
def encodeSchema (e : Endian) (names : List (List Nat))
    (types : List (List Nat × Nat)) (structs : List (Nat × List (Nat × Nat))) :
    List Nat :=
  sec1p e names ++ (sec2p e types ++ (sec3p e types ++ sec4 e structs))

/-- A byte string usable as a name on disk: genuine bytes, no embedded
null terminator. -/
def GoodName (n : List Nat) : Prop := (∀ b ∈ n, b < 256) ∧ 0 ∉ n

/-- Well-formedness of a synthetic schema: counts fit the signed 32-bit
count fields, sizes and indices fit the signed 16-bit fields, and all
names are null-free byte strings. -/
def WFSchema (names : List (List Nat)) (types : List (List Nat × Nat))
    (structs : List (Nat × List (Nat × Nat))) : Prop :=
  names.length < 2 ^ 31 ∧ (∀ n ∈ names, GoodName n) ∧
  types.length < 2 ^ 31 ∧ (∀ t ∈ types, GoodName t.1 ∧ t.2 < 2 ^ 15) ∧
  structs.length < 2 ^ 31 ∧
  (∀ s ∈ structs, s.1 < 2 ^ 15 ∧ s.2.length < 2 ^ 15 ∧
    ∀ f ∈ s.2, f.1 < 2 ^ 15 ∧ f.2 < 2 ^ 15)

/-- The types sequence the decoder is expected to reproduce (sizes become
Python integers). -/
def decodedTypes (types : List (List Nat × Nat)) : List (List Nat × Int) :=
  types.map (fun t => (t.1, (t.2 : Int)))

/-- The structures sequence the decoder is expected to reproduce. -/
def decodedStructs (structs : List (Nat × List (Nat × Nat))) : List BlendStructRef :=
  structs.map (fun s => ⟨(s.1 : Int), s.2.map (fun f => ((f.1 : Int), (f.2 : Int)))⟩)

/-- The in-bounds property claimed for decoded schemas: every structure
type index is within the types sequence, every field type index within the
types sequence, every field name index within the names sequence. -/
def SchemaInBounds (idx : BlendIndex) : Prop :=
  ∀ s ∈ idx.structures, s.name < (idx.types.length : Int) ∧
    ∀ f ∈ s.fields, f.1 < (idx.types.length : Int) ∧ f.2 < (idx.names.length : Int)

/-- Example schema content: one name `"ob"`. -/
def exNames : List (List Nat) := [[111, 98]]

/-- Example schema content: one type `"int"` of size 4. -/
def exTypes : List (List Nat × Nat) := [([105, 110, 116], 4)]

/-- Example schema content: one structure of type 0 with one field (0,0). -/
def exStructs : List (Nat × List (Nat × Nat)) := [(0, [(0, 0)])]

/-- The example schema payload, encoded little-endian. -/
def exPayload : List Nat := encodeSchema .Little exNames exTypes exStructs

/-- The example payload with the `b'TLEN'` tag overwritten by garbage
(`b'XXXX'`). -/
def exPayloadTlenGarbled : List Nat :=
  [83, 68, 78, 65, 78, 65, 77, 69, 1, 0, 0, 0, 111, 98, 0, 0,
   84, 89, 80, 69, 1, 0, 0, 0, 105, 110, 116, 0,
   88, 88, 88, 88, 4, 0, 0, 0,
   83, 84, 82, 67, 1, 0, 0, 0, 0, 0, 1, 0, 0, 0, 0, 0]

/-- A schema whose single structure refers to type index 7 although only
one type exists: the tags are all valid, so the decoder accepts it. -/
def exBadPayload : List Nat :=
  encodeSchema .Little [[110]] [([116], 4)] [(7, [])]

/-- The block tag `b'DNA1'` marking the schema/index block. -/
def dna1Tag : List Nat := [68, 78, 65, 49]

/-- The block tag `b'ENDB'` marking the end of the block stream. -/
def endbTag : List Nat := [69, 78, 68, 66]

/-- The per-file decoding configuration taken from the parsed header. -/
structure ScanCfg where
  endian : Endian
  arch : Arch
deriving DecidableEq

/-- Size in bytes of the pointer field (struct code `'I'` or `'Q'`). -/
def ptrSize : Arch → Nat
  | .X32 => 4
  | .X64 => 8

/-- Size of one `BlendBlockHeader` record (format `'4siPii'`). -/
def headerSize (a : Arch) : Nat := 16 + ptrSize a

/-- One decoded `BlendBlockHeader`: 4 raw code bytes, signed 32-bit size,
unsigned pointer-width address, signed 32-bit sdna index and count. -/
structure BlockHead where
  code : List Nat
  size : Int
  addr : Nat
  sdna : Int
  count : Int
deriving DecidableEq

/-- `handle.read(n)` at position `pos`: the bytes read and the new
position.  A negative `n` reads to the end of the stream, reading past the
end returns what remains, and a position beyond the end stays put. -/
def pyRead (data : List Nat) (pos : Nat) (n : Int) : List Nat × Nat :=
  if n < 0 then (data.drop pos, max pos data.length)
  else ((data.drop pos).take n.toNat, max pos (min (pos + n.toNat) data.length))

/-- `BlendBlockHeader.unpack(buf)`: `struct.error` (modelled as `none`)
unless the buffer is exactly one record long. -/
def unpackBlockHead (c : ScanCfg) (buf : List Nat) : Option BlockHead :=
  if buf.length = headerSize c.arch then
    some { code := buf.take 4,
           size := toSigned 32 (bytesToNat c.endian ((buf.drop 4).take 4)),
           addr := bytesToNat c.endian ((buf.drop 8).take (ptrSize c.arch)),
           sdna := toSigned 32
             (bytesToNat c.endian ((buf.drop (8 + ptrSize c.arch)).take 4)),
           count := toSigned 32
             (bytesToNat c.endian ((buf.drop (12 + ptrSize c.arch)).take 4)) }
  else none

/-- `BlenderFile._parse_index` as invoked on the stream: read `size`
payload bytes from the current position `pos`, decode them, and seek back
to `data_offset = pos` (the payload start), regardless of how much the
decoder consumed. -/
def parseIndexOnHandle (c : ScanCfg) (data : List Nat) (pos : Nat) (size : Int) :
    Except BErr (BlendIndex × Nat) :=
  (parseIndexPayload c.endian (pyRead data pos size).1).bind fun idx =>
    .ok (idx, pos)

/-- The state in which the scan loop of `_parse_blocks` finishes. -/
structure ScanDone where
  dir : List (BlockHead × Nat)
  idx : Option BlendIndex
  endFound : Bool
  pos : Nat
deriving DecidableEq

/-- The scan loop of `_parse_blocks` (`while end != handle.seek(0,1) and
not end_found`), with explicit fuel: read one block header; on `DNA1`
decode the schema (the stream is restored to the payload start by
`parseIndexOnHandle`), on `ENDB` stop, otherwise record the block with its
payload offset; in every case skip `size` payload bytes before the next
iteration. -/
def scanLoop (c : ScanCfg) (data : List Nat) :
    Nat → Nat → Option BlendIndex → List (BlockHead × Nat) →
      Except BErr ScanDone
  | 0, _, _, _ => .error .outOfFuel
  | fuel + 1, pos, idx, dir =>
    if pos = data.length then .ok ⟨dir, idx, false, pos⟩
    else
      match unpackBlockHead c (pyRead data pos (headerSize c.arch)).1 with
      | none => .error .structError
      | some head =>
        if head.code = dna1Tag then
          (parseIndexOnHandle c data
              (pyRead data pos (headerSize c.arch)).2 head.size).bind fun ip =>
            scanLoop c data fuel (pyRead data ip.2 head.size).2 (some ip.1) dir
        else if head.code = endbTag then
          .ok ⟨dir, idx, true,
            (pyRead data (pyRead data pos (headerSize c.arch)).2 head.size).2⟩
        else
          scanLoop c data fuel
            (pyRead data (pyRead data pos (headerSize c.arch)).2 head.size).2
            idx (dir ++ [(head, (pyRead data pos (headerSize c.arch)).2)])

/-- The blocks the scan loop reads before stopping, in on-disk order, with
their payload offsets — including the `DNA1` and `ENDB` blocks themselves. -/
def scanTrace (c : ScanCfg) (data : List Nat) :
    Nat → Nat → List (BlockHead × Nat)
  | 0, _ => []
  | fuel + 1, pos =>
    if pos = data.length then []
    else
      match unpackBlockHead c (pyRead data pos (headerSize c.arch)).1 with
      | none => []
      | some head =>
        if head.code = dna1Tag then
          match parseIndexOnHandle c data
              (pyRead data pos (headerSize c.arch)).2 head.size with
          | .error _ => [(head, (pyRead data pos (headerSize c.arch)).2)]
          | .ok ip => (head, (pyRead data pos (headerSize c.arch)).2) ::
              scanTrace c data fuel (pyRead data ip.2 head.size).2
        else if head.code = endbTag then
          [(head, (pyRead data pos (headerSize c.arch)).2)]
        else
          (head, (pyRead data pos (headerSize c.arch)).2) ::
            scanTrace c data fuel
              (pyRead data (pyRead data pos (headerSize c.arch)).2 head.size).2

/-- Whether a scanned block belongs in the returned directory: neither the
schema block nor the terminator. -/
def keepBlock (p : BlockHead × Nat) : Bool :=
  decide (p.1.code ≠ dna1Tag ∧ p.1.code ≠ endbTag)

/-- `BlenderFile._parse_blocks`: scan from offset 12 (just past the file
header) with ample fuel, then require a schema block was decoded
(`MissingIndex` first) and the terminator was seen (`MissingTerminator`),
in that order. -/
def parse_blocks (c : ScanCfg) (data : List Nat) :
    Except BErr (List (BlockHead × Nat) × BlendIndex) :=
  (scanLoop c data (data.length + 1) 12 none []).bind fun s =>
    match s.idx with
    | none => .error .missingIndex
    | some bidx =>
      if s.endFound then .ok (s.dir, bidx) else .error .missingTerminator

/-- Example scan configuration: little-endian, 32-bit pointers. -/
def exCfg : ScanCfg := ⟨.Little, .X32⟩

/-- Example file: 12-byte header, one `TEST` block with a 4-byte payload,
the `DNA1` schema block carrying `exPayload`, and the `ENDB` terminator. -/
def exFile : List Nat :=
  [66, 76, 69, 78, 68, 69, 82, 95, 118, 49, 48, 48] ++
  ([84, 69, 83, 84, 4, 0, 0, 0, 0, 0, 0, 0, 0, 0, 0, 0, 0, 0, 0, 0] ++
    [1, 2, 3, 4]) ++
  ([68, 78, 65, 49, 52, 0, 0, 0, 0, 0, 0, 0, 0, 0, 0, 0, 0, 0, 0, 0] ++
    exPayload) ++
  [69, 78, 68, 66, 0, 0, 0, 0, 0, 0, 0, 0, 0, 0, 0, 0, 0, 0, 0, 0]

/-- Example stream with no `DNA1` block: header then `ENDB` only. -/
def exNoDnaFile : List Nat :=
  [66, 76, 69, 78, 68, 69, 82, 95, 118, 49, 48, 48] ++
  [69, 78, 68, 66, 0, 0, 0, 0, 0, 0, 0, 0, 0, 0, 0, 0, 0, 0, 0, 0]

/-- Example stream truncated after the schema block: no `ENDB` present. -/
def exNoEndbFile : List Nat :=
  [66, 76, 69, 78, 68, 69, 82, 95, 118, 49, 48, 48] ++
  ([68, 78, 65, 49, 52, 0, 0, 0, 0, 0, 0, 0, 0, 0, 0, 0, 0, 0, 0, 0] ++
    exPayload)

/-- The index decoded from `exPayload`. -/
def exIndex : BlendIndex :=
  ⟨[[111, 98]], [([105, 110, 116], 4)], [⟨0, [(0, 0)]⟩]⟩

/-- C7: the Header Decoder on `b"BLENDER-v280"` yields version (2,8,0),
64-bit pointers and little-endian order; on `b"BLENDER_V279"` it yields
version (2,7,9), 32-bit pointers and big-endian order. -/
theorem parse_header_concrete_scenarios :
    parse_header [66, 76, 69, 78, 68, 69, 82, 45, 118, 50, 56, 48] =
      some ⟨⟨2, 8, 0⟩, .X64, .Little⟩ ∧
    parse_header [66, 76, 69, 78, 68, 69, 82, 95, 86, 50, 55, 57] =
      some ⟨⟨2, 7, 9⟩, .X32, .Big⟩ := by
  constructor <;> rfl

theorem encLE_length (w v : Nat) : (encLE w v).length = w := by
  induction w generalizing v with
  | zero => rfl
  | succ k ih => simp [encLE, ih]

theorem encU_length (e : Endian) (w v : Nat) : (encU e w v).length = w := by
  cases e <;> simp [encU, encLE_length]

theorem leVal_encLE {w v : Nat} (h : v < 256 ^ w) : leVal (encLE w v) = v := by
  induction w generalizing v with
  | zero =>
    have : v = 0 := by simpa using h
    simp [this, encLE, leVal]
  | succ k ih =>
    have hdiv : v / 256 < 256 ^ k := by
      rw [Nat.div_lt_iff_lt_mul (by norm_num)]
      calc v < 256 ^ (k + 1) := h
        _ = 256 ^ k * 256 := by ring
    simp only [encLE, leVal, ih hdiv]
    omega

theorem bytesToNat_encU {e : Endian} {w v : Nat} (h : v < 256 ^ w) :
    bytesToNat e (encU e w v) = v := by
  cases e <;> simp [bytesToNat, encU, leVal_encLE h]

theorem toSigned32_of_lt {u : Nat} (h : u < 2 ^ 31) : toSigned 32 u = (u : Int) := by
  simp only [toSigned]
  rw [if_pos]
  exact_mod_cast h

theorem toSigned16_of_lt {u : Nat} (h : u < 2 ^ 15) : toSigned 16 u = (u : Int) := by
  simp only [toSigned]
  rw [if_pos]
  exact_mod_cast h

theorem namesBlob_length (names : List (List Nat)) :
    (namesBlob names).length = namesByteLen names + names.length := by
  induction names with
  | nil => rfl
  | cons n ns ih =>
    simp only [namesBlob, List.map_cons, List.flatten, List.length_append,
      namesByteLen, List.map_cons, List.sum_cons, List.length_cons] at *
    simp [encName, ih]
    omega

theorem shortsBlob_length (e : Endian) (types : List (List Nat × Nat)) :
    (shortsBlob e types).length = 2 * types.length := by
  induction types with
  | nil => rfl
  | cons t ts ih =>
    simp only [shortsBlob, List.map_cons, List.flatten, List.length_append,
      List.length_cons] at *
    simp [encU_length, ih]
    omega

theorem fieldsBlob_length (e : Endian) (fields : List (Nat × Nat)) :
    (fieldsBlob e fields).length = 4 * fields.length := by
  induction fields with
  | nil => rfl
  | cons f fs ih =>
    simp only [fieldsBlob, List.map_cons, List.flatten, List.length_append,
      List.length_cons] at *
    simp [encU_length, ih]
    omega

/-- Extracting a fully in-range Python slice: if `data` decomposes as
`pre ++ chunk ++ rest` then the slice covering `chunk` returns it. -/
theorem pySlice_at (data pre chunk rest : List Nat) (i j : Int)
    (hd : data = pre ++ chunk ++ rest) (hi : i = pre.length)
    (hj : j = pre.length + chunk.length) :
    pySlice data i j = chunk := by
  subst hd hi hj
  unfold pySlice
  have hL : ((pre ++ chunk ++ rest).length : Int) =
      (pre.length : Int) + chunk.length + rest.length := by
    push_cast [List.length_append]
    ring
  have h1 : ¬ ((pre.length : Int) < 0) := by exact not_lt.mpr (Int.natCast_nonneg _)
  have h2 : ¬ ((pre.length : Int) + chunk.length < 0) := by exact not_lt.mpr (Int.natCast_nonneg _)
  simp only [h1, h2, if_false, hL]
  have hmin1 : min ((pre.length : Int)) ((pre.length : Int) + chunk.length + rest.length) =
      (pre.length : Int) := by omega
  have hmin2 : min ((pre.length : Int) + chunk.length)
      ((pre.length : Int) + chunk.length + rest.length) =
      (pre.length : Int) + chunk.length := by omega
  rw [hmin1, hmin2]
  by_cases hc : chunk.length = 0
  · rw [if_neg (by omega)]
    exact (List.eq_nil_of_length_eq_zero hc).symm
  · rw [if_pos (by omega)]
    have ha : ((pre.length : Int)).toNat = pre.length := Int.toNat_natCast _
    have hb : ((pre.length : Int) + chunk.length - pre.length).toNat = chunk.length := by
      omega
    rw [ha, hb]
    simp only [List.append_assoc]
    rw [List.drop_left, List.take_left]

/-- Extracting a Python tail slice `data[i:]`. -/
theorem pySliceFrom_at (data pre rest : List Nat) (i : Int)
    (hd : data = pre ++ rest) (hi : i = pre.length) :
    pySliceFrom data i = rest := by
  subst hd
  exact pySlice_at _ pre rest [] i _ (by simp) hi (by simp)

/-- `struct.unpack_from` of a field sitting at offset `pre.length`. -/
theorem unpackFromRaw_at (e : Endian) (data pre chunk rest : List Nat) (w : Nat)
    (off : Int) (hd : data = pre ++ chunk ++ rest) (hoff : off = pre.length)
    (hw : chunk.length = w) :
    unpackFromRaw e w data off = .ok (bytesToNat e chunk) := by
  subst hd hoff hw
  unfold unpackFromRaw
  have h1 : ¬ ((pre.length : Int) < 0) := by exact not_lt.mpr (Int.natCast_nonneg _)
  have hL : ((pre ++ chunk ++ rest).length : Int) =
      (pre.length : Int) + chunk.length + rest.length := by
    push_cast [List.length_append]
    ring
  simp only [h1, if_false, hL]
  rw [if_pos (by constructor <;> omega)]
  rw [Int.toNat_natCast]
  simp only [List.append_assoc]
  rw [List.drop_left, List.take_left]

/-- Decoding a 32-bit signed count field back out of its encoding. -/
theorem unpack32_at (e : Endian) (data pre rest : List Nat) (v : Nat)
    (off : Int) (hd : data = pre ++ encU e 4 v ++ rest) (hoff : off = pre.length)
    (hv : v < 2 ^ 31) :
    unpack32 e data off = .ok (v : Int) := by
  unfold unpack32
  rw [unpackFromRaw_at e data pre (encU e 4 v) rest 4 off hd hoff (encU_length e 4 v)]
  simp only [Except.map]
  rw [bytesToNat_encU (by norm_num at hv ⊢; omega), toSigned32_of_lt hv]

/-- Decoding a 16-bit signed field back out of its encoding. -/
theorem unpack16_at (e : Endian) (data pre rest : List Nat) (v : Nat)
    (off : Int) (hd : data = pre ++ encU e 2 v ++ rest) (hoff : off = pre.length)
    (hv : v < 2 ^ 15) :
    unpack16 e data off = .ok (v : Int) := by
  unfold unpack16
  rw [unpackFromRaw_at e data pre (encU e 2 v) rest 2 off hd hoff (encU_length e 2 v)]
  simp only [Except.map]
  rw [bytesToNat_encU (by norm_num at hv ⊢; omega), toSigned16_of_lt hv]

/-- Decoding one encoded field record (`'hh'`) back out of its encoding. -/
theorem unpackStructField_at (e : Endian) (data pre rest : List Nat) (x y : Nat)
    (off : Int) (hd : data = pre ++ encU e 2 x ++ encU e 2 y ++ rest)
    (hoff : off = pre.length) (hx : x < 2 ^ 15) (hy : y < 2 ^ 15) :
    unpackStructField e data off = .ok ((x : Int), (y : Int)) := by
  subst hd hoff
  unfold unpackStructField
  have h1 : ¬ ((pre.length : Int) < 0) := by exact not_lt.mpr (Int.natCast_nonneg _)
  have hL : ((pre ++ encU e 2 x ++ encU e 2 y ++ rest).length : Int) =
      (pre.length : Int) + 2 + 2 + rest.length := by
    push_cast [List.length_append, encU_length]
    ring
  simp only [h1, if_false, hL]
  rw [if_pos (by constructor <;> omega)]
  have hfst : ((pre ++ encU e 2 x ++ encU e 2 y ++ rest).drop
      ((pre.length : Int)).toNat).take 2 = encU e 2 x := by
    rw [Int.toNat_natCast]
    simp only [List.append_assoc]
    rw [List.drop_left, List.take_left' (encU_length e 2 x)]
  have hsnd : ((pre ++ encU e 2 x ++ encU e 2 y ++ rest).drop
      (((pre.length : Int)).toNat + 2)).take 2 = encU e 2 y := by
    rw [Int.toNat_natCast]
    rw [List.append_assoc (pre ++ encU e 2 x) (encU e 2 y) rest]
    have hlen : pre.length + 2 = (pre ++ encU e 2 x).length := by
      simp [List.length_append, encU_length]
    rw [hlen, List.drop_left, List.take_left' (encU_length e 2 y)]
  rw [hfst, hsnd]
  rw [bytesToNat_encU (by norm_num at hx ⊢; omega),
    bytesToNat_encU (by norm_num at hy ⊢; omega),
    toSigned16_of_lt hx, toSigned16_of_lt hy]

/-- `pyAlign` agrees with the `Nat`-level `align4n` on non-negative
offsets. -/
theorem pyAlign_natCast (n : Nat) : pyAlign (n : Int) = (align4n n : Int) := by
  unfold pyAlign align4n
  have hm : ((n : Int) % 4) = ((n % 4 : Nat) : Int) := by
    push_cast
    rfl
  rw [hm]
  by_cases h : n % 4 = 0
  · rw [if_pos (by exact_mod_cast h)]
    push_cast
    omega
  · rw [if_neg (by exact_mod_cast h)]
    have : n % 4 < 4 := Nat.mod_lt _ (by norm_num)
    push_cast
    omega

theorem align4n_dvd (n : Nat) : 4 ∣ align4n n := by
  unfold align4n
  omega

theorem align4n_add (a m : Nat) (h : 4 ∣ a) : align4n (a + m) = a + align4n m := by
  unfold align4n
  omega

theorem length_append_pad4 (l : List Nat) :
    (l ++ pad4 l.length).length = align4n l.length := by
  simp [pad4, align4n]

/-- A null-free run before a null terminator is what `takeWhile` keeps. -/
theorem takeWhile_ne_zero_append (n t : List Nat) (h : 0 ∉ n) :
    (n ++ 0 :: t).takeWhile (fun b => b ≠ 0) = n := by
  induction n with
  | nil => simp [List.takeWhile]
  | cons a n ih =>
    have ha : a ≠ 0 := fun hc => h (hc ▸ List.mem_cons_self a n)
    have hn : 0 ∉ n := fun hc => h (List.mem_cons_of_mem a hc)
    simp only [List.cons_append, List.takeWhile_cons]
    rw [if_pos (by simpa using ha), ih hn]

/-- Splitting the encoded name blob with exactly `names.length` cuts
recovers the names and leaves the remainder as the final piece. -/
theorem splitNull_blob (names : List (List Nat)) (rest : List Nat)
    (h : ∀ n ∈ names, 0 ∉ n) :
    splitNullLimited names.length (namesBlob names ++ rest) = names ++ [rest] := by
  induction names generalizing rest with
  | nil => simp [namesBlob, splitNullLimited]
  | cons n ns ih =>
    have hn : 0 ∉ n := h n (List.mem_cons_self n ns)
    have hns : ∀ m ∈ ns, 0 ∉ m := fun m hm => h m (List.mem_cons_of_mem n hm)
    have hblob : namesBlob (n :: ns) ++ rest = n ++ 0 :: (namesBlob ns ++ rest) := by
      simp [namesBlob, encName, List.append_assoc]
    rw [List.length_cons, hblob]
    simp only [splitNullLimited]
    rw [takeWhile_ne_zero_append n _ hn, List.drop_left]
    simp only
    rw [ih rest hns]
    rfl

/-- `shorts16` consumes one encoded short off the front of a buffer. -/
theorem shorts16_cons (e : Endian) (v : Nat) (rest : List Nat) :
    shorts16 e (encU e 2 v ++ rest) =
      toSigned 16 (bytesToNat e (encU e 2 v)) :: shorts16 e rest := by
  cases e <;> simp [encU, encLE, shorts16, bytesToNat]

/-- Decoding the encoded TLEN size table recovers the sizes in order. -/
theorem shorts16_blob (e : Endian) (types : List (List Nat × Nat))
    (h : ∀ t ∈ types, t.2 < 2 ^ 15) :
    shorts16 e (shortsBlob e types) = types.map (fun t => (t.2 : Int)) := by
  induction types with
  | nil => cases e <;> rfl
  | cons t ts ih =>
    have ht : t.2 < 2 ^ 15 := h t (List.mem_cons_self t ts)
    have hts : ∀ u ∈ ts, u.2 < 2 ^ 15 := fun u hu => h u (List.mem_cons_of_mem t hu)
    have hblob : shortsBlob e (t :: ts) = encU e 2 t.2 ++ shortsBlob e ts := by
      simp [shortsBlob]
    rw [hblob, shorts16_cons, bytesToNat_encU (by norm_num at ht ⊢; omega),
      toSigned16_of_lt ht, ih hts, List.map_cons]

theorem except_bind_ok {ε α β : Type} (a : α) (f : α → Except ε β) :
    (Except.ok a : Except ε α).bind f = f a := rfl

theorem except_bind_error {ε α β : Type} (er : ε) (f : α → Except ε β) :
    (Except.error er : Except ε α).bind f = .error er := rfl

theorem sec1_length (e : Endian) (names : List (List Nat)) :
    (sec1 e names).length = 12 + namesByteLen names + names.length := by
  simp [sec1, sdnaTag, encU_length, namesBlob_length]
  omega

theorem sec1p_length (e : Endian) (names : List (List Nat)) :
    (sec1p e names).length = align4n (12 + namesByteLen names + names.length) := by
  rw [sec1p, length_append_pad4, sec1_length]

theorem sec2_length (e : Endian) (types : List (List Nat × Nat)) :
    (sec2 e types).length =
      8 + namesByteLen (types.map Prod.fst) + types.length := by
  simp [sec2, typeTag, encU_length, namesBlob_length]
  omega

theorem sec2p_length (e : Endian) (types : List (List Nat × Nat)) :
    (sec2p e types).length =
      align4n (8 + namesByteLen (types.map Prod.fst) + types.length) := by
  rw [sec2p, length_append_pad4, sec2_length]

theorem sec3_length (e : Endian) (types : List (List Nat × Nat)) :
    (sec3 e types).length = 4 + 2 * types.length := by
  simp [sec3, tlenTag, shortsBlob_length]
  omega

theorem sec3p_length (e : Endian) (types : List (List Nat × Nat)) :
    (sec3p e types).length = align4n (4 + 2 * types.length) := by
  rw [sec3p, length_append_pad4, sec3_length]

theorem sec1p_dvd (e : Endian) (names : List (List Nat)) :
    4 ∣ (sec1p e names).length := by
  rw [sec1p_length]
  exact align4n_dvd _

theorem sec2p_dvd (e : Endian) (types : List (List Nat × Nat)) :
    4 ∣ (sec2p e types).length := by
  rw [sec2p_length]
  exact align4n_dvd _

theorem sec3p_dvd (e : Endian) (types : List (List Nat × Nat)) :
    4 ∣ (sec3p e types).length := by
  rw [sec3p_length]
  exact align4n_dvd _

/-- Stage lemma for step 2: on an encoded payload, the name section decodes
to the original names and leaves the offset at the end of the padded
SDNANAME section. -/
theorem readNames_encode (e : Endian) (names : List (List Nat))
    (types : List (List Nat × Nat)) (structs : List (Nat × List (Nat × Nat)))
    (hn31 : names.length < 2 ^ 31) (hn0 : ∀ n ∈ names, 0 ∉ n) :
    readNames e (encodeSchema e names types structs) =
      .ok ⟨names, ((sec1p e names).length : Int)⟩ := by
  have htag : pySlice (encodeSchema e names types structs) 0 8 = sdnaTag := by
    apply pySlice_at _ [] sdnaTag
      (encU e 4 names.length ++ (namesBlob names ++ (pad4 (sec1 e names).length ++
        (sec2p e types ++ (sec3p e types ++ sec4 e structs)))))
      0 8
    · simp [encodeSchema, sec1p, sec1, List.append_assoc]
    · simp
    · simp [sdnaTag]
  have hcnt : unpack32 e (encodeSchema e names types structs) 8 =
      .ok (names.length : Int) := by
    apply unpack32_at e _ sdnaTag
      (namesBlob names ++ (pad4 (sec1 e names).length ++
        (sec2p e types ++ (sec3p e types ++ sec4 e structs))))
      names.length 8
    · simp [encodeSchema, sec1p, sec1, List.append_assoc]
    · simp [sdnaTag]
    · exact hn31
  have hfrom : pySliceFrom (encodeSchema e names types structs) 12 =
      namesBlob names ++ (pad4 (sec1 e names).length ++
        (sec2p e types ++ (sec3p e types ++ sec4 e structs))) := by
    apply pySliceFrom_at _ (sdnaTag ++ encU e 4 names.length)
    · simp [encodeSchema, sec1p, sec1, List.append_assoc]
    · simp [sdnaTag, encU_length]
  have hsplit : pySplitNull (pySliceFrom (encodeSchema e names types structs) 12)
      ((names.length : Int)) =
      names ++ [pad4 (sec1 e names).length ++
        (sec2p e types ++ (sec3p e types ++ sec4 e structs))] := by
    rw [hfrom]
    unfold pySplitNull
    rw [if_neg (by exact not_lt.mpr (Int.natCast_nonneg _)), Int.toNat_natCast,
      ← List.append_assoc]
    have := splitNull_blob names
      (pad4 (sec1 e names).length ++
        (sec2p e types ++ (sec3p e types ++ sec4 e structs))) hn0
    rw [← List.append_assoc] at this
    exact this
  unfold readNames
  rw [if_neg (by rw [htag]; simp), hcnt, except_bind_ok]
  simp only [hsplit, List.dropLast_concat]
  have hoff : pyAlign (8 + ((namesByteLen names : Int) + names.length + 4)) =
      ((sec1p e names).length : Int) := by
    have h1 : (8 : Int) + ((namesByteLen names : Int) + names.length + 4) =
        ((12 + namesByteLen names + names.length : Nat) : Int) := by
      push_cast
      ring
    rw [h1, pyAlign_natCast, sec1p_length]
  rw [hoff]

/-- Stage lemma for step 3: the type-name section decodes to the original
type names and leaves the offset at the end of the padded TYPE section. -/
theorem readTypeNames_encode (e : Endian) (names : List (List Nat))
    (types : List (List Nat × Nat)) (structs : List (Nat × List (Nat × Nat)))
    (hn31 : names.length < 2 ^ 31) (hn0 : ∀ n ∈ names, 0 ∉ n)
    (ht31 : types.length < 2 ^ 31) (ht0 : ∀ t ∈ types, 0 ∉ t.1) :
    readTypeNames e (encodeSchema e names types structs) =
      .ok ⟨names, types.map Prod.fst, (types.length : Int),
        (((sec1p e names).length + (sec2p e types).length : Nat) : Int)⟩ := by
  have htag : pySlice (encodeSchema e names types structs)
      ((sec1p e names).length : Int) (((sec1p e names).length : Int) + 4) = typeTag := by
    apply pySlice_at _ (sec1p e names) typeTag
      (encU e 4 types.length ++ (namesBlob (types.map Prod.fst) ++
        (pad4 (sec2 e types).length ++ (sec3p e types ++ sec4 e structs))))
    · simp [encodeSchema, sec2p, sec2, List.append_assoc]
    · rfl
    · simp [typeTag]
  have hcnt : unpack32 e (encodeSchema e names types structs)
      (((sec1p e names).length : Int) + 4) = .ok (types.length : Int) := by
    apply unpack32_at e _ (sec1p e names ++ typeTag)
      (namesBlob (types.map Prod.fst) ++
        (pad4 (sec2 e types).length ++ (sec3p e types ++ sec4 e structs)))
      types.length
    · simp [encodeSchema, sec2p, sec2, List.append_assoc]
    · simp [typeTag]
    · exact ht31
  have hfrom : pySliceFrom (encodeSchema e names types structs)
      (((sec1p e names).length : Int) + 8) =
      namesBlob (types.map Prod.fst) ++
        (pad4 (sec2 e types).length ++ (sec3p e types ++ sec4 e structs)) := by
    apply pySliceFrom_at _ (sec1p e names ++ typeTag ++ encU e 4 types.length)
    · simp [encodeSchema, sec2p, sec2, List.append_assoc]
    · simp only [List.length_append, typeTag, List.length_cons, List.length_nil,
        encU_length]
      push_cast
      ring
  have ht0' : ∀ n ∈ types.map Prod.fst, 0 ∉ n := by
    intro n hn
    obtain ⟨t, htm, rfl⟩ := List.mem_map.mp hn
    exact ht0 t htm
  have hsplit : pySplitNull
      (pySliceFrom (encodeSchema e names types structs)
        (((sec1p e names).length : Int) + 8)) ((types.length : Int)) =
      types.map Prod.fst ++
        [pad4 (sec2 e types).length ++ (sec3p e types ++ sec4 e structs)] := by
    rw [hfrom]
    unfold pySplitNull
    rw [if_neg (by exact not_lt.mpr (Int.natCast_nonneg _)), Int.toNat_natCast]
    have hlm : types.length = (types.map Prod.fst).length := (List.length_map _ _).symm
    rw [hlm]
    exact splitNull_blob (types.map Prod.fst) _ ht0'
  rw [readTypeNames, readNames_encode e names types structs hn31 hn0, except_bind_ok]
  rw [if_neg (by rw [htag]; simp), hcnt, except_bind_ok]
  simp only [hsplit, List.dropLast_concat]
  have hoff : pyAlign (((sec1p e names).length : Int) +
      ((namesByteLen (types.map Prod.fst) : Int) + (types.map Prod.fst).length + 8)) =
      (((sec1p e names).length + (sec2p e types).length : Nat) : Int) := by
    have h1 : ((sec1p e names).length : Int) +
        ((namesByteLen (types.map Prod.fst) : Int) + (types.map Prod.fst).length + 8) =
        (((sec1p e names).length +
          (8 + namesByteLen (types.map Prod.fst) + types.length) : Nat) : Int) := by
      push_cast [List.length_map]
      ring
    rw [h1, pyAlign_natCast, align4n_add _ _ (sec1p_dvd e names), ← sec2p_length]
  rw [hoff]

/-- Stage lemma for step 4: the TLEN section decodes the size table, zips
it with the type names, and leaves the offset at the end of the padded
TLEN section. -/
theorem readTlen_encode (e : Endian) (names : List (List Nat))
    (types : List (List Nat × Nat)) (structs : List (Nat × List (Nat × Nat)))
    (hn31 : names.length < 2 ^ 31) (hn0 : ∀ n ∈ names, 0 ∉ n)
    (ht31 : types.length < 2 ^ 31) (ht0 : ∀ t ∈ types, 0 ∉ t.1)
    (hsz : ∀ t ∈ types, t.2 < 2 ^ 15) :
    readTlen e (encodeSchema e names types structs) =
      .ok ⟨names, decodedTypes types,
        (((sec1p e names).length + (sec2p e types).length +
          (sec3p e types).length : Nat) : Int)⟩ := by
  have htag : pySlice (encodeSchema e names types structs)
      (((sec1p e names).length + (sec2p e types).length : Nat) : Int)
      ((((sec1p e names).length + (sec2p e types).length : Nat) : Int) + 4) =
      tlenTag := by
    apply pySlice_at _ (sec1p e names ++ sec2p e types) tlenTag
      (shortsBlob e types ++ (pad4 (sec3 e types).length ++ sec4 e structs))
    · simp [encodeSchema, sec3p, sec3, List.append_assoc]
    · simp
    · simp [tlenTag]
  have hshorts : pySlice (encodeSchema e names types structs)
      ((((sec1p e names).length + (sec2p e types).length : Nat) : Int) + 4)
      (((((sec1p e names).length + (sec2p e types).length : Nat) : Int) + 4) +
        2 * (types.length : Int)) =
      shortsBlob e types := by
    apply pySlice_at _ (sec1p e names ++ sec2p e types ++ tlenTag)
      (shortsBlob e types) (pad4 (sec3 e types).length ++ sec4 e structs)
    · simp [encodeSchema, sec3p, sec3, List.append_assoc]
    · simp [tlenTag]
      ring
    · simp [tlenTag, shortsBlob_length]
      ring
  have hiter : iterUnpack16 e (shortsBlob e types) =
      .ok (types.map (fun t => (t.2 : Int))) := by
    unfold iterUnpack16
    rw [if_pos (by rw [shortsBlob_length]; omega), shorts16_blob e types hsz]
  rw [readTlen, readTypeNames_encode e names types structs hn31 hn0 ht31 ht0,
    except_bind_ok]
  rw [if_neg (by rw [htag]; simp)]
  simp only
  rw [hshorts, hiter, except_bind_ok]
  have hzip : (types.map Prod.fst).zip (types.map (fun t => (t.2 : Int))) =
      decodedTypes types := by
    rw [decodedTypes, List.zip_map']
  rw [hzip]
  have hoff : pyAlign ((((sec1p e names).length + (sec2p e types).length : Nat) : Int)
      + 4 + 2 * (types.length : Int)) =
      (((sec1p e names).length + (sec2p e types).length +
        (sec3p e types).length : Nat) : Int) := by
    have h1 : (((sec1p e names).length + (sec2p e types).length : Nat) : Int)
        + 4 + 2 * (types.length : Int) =
        (((sec1p e names).length + (sec2p e types).length +
          (4 + 2 * types.length) : Nat) : Int) := by
      push_cast
      ring
    rw [h1, pyAlign_natCast,
      align4n_add _ _ (Dvd.dvd.add (sec1p_dvd e names) (sec2p_dvd e types)),
      ← sec3p_length]
  rw [hoff]

theorem encStruct_length (e : Endian) (s : Nat × List (Nat × Nat)) :
    (encStruct e s).length = 4 + 4 * s.2.length := by
  simp [encStruct, encU_length, fieldsBlob_length]
  omega

/-- Decoding the encoded field records of one structure recovers the
field index pairs and advances the offset by 4 bytes per field. -/
theorem parseFieldsLoop_at (e : Endian) (data : List Nat)
    (fields : List (Nat × Nat)) :
    ∀ pre rest : List Nat, data = pre ++ fieldsBlob e fields ++ rest →
      (∀ f ∈ fields, f.1 < 2 ^ 15 ∧ f.2 < 2 ^ 15) →
      parseFieldsLoop e data fields.length ((pre.length : Nat) : Int) =
        .ok (fields.map (fun f => ((f.1 : Int), (f.2 : Int))),
          ((pre.length + 4 * fields.length : Nat) : Int)) := by
  induction fields with
  | nil =>
    intro pre rest _ _
    simp [parseFieldsLoop]
  | cons f fs ih =>
    intro pre rest hd hb
    have hf := hb f (List.mem_cons_self f fs)
    have hfs : ∀ g ∈ fs, g.1 < 2 ^ 15 ∧ g.2 < 2 ^ 15 :=
      fun g hg => hb g (List.mem_cons_of_mem f hg)
    have hd' : data = pre ++ encU e 2 f.1 ++ encU e 2 f.2 ++
        (fieldsBlob e fs ++ rest) := by
      rw [hd]
      simp [fieldsBlob, List.append_assoc]
    have hstep := unpackStructField_at e data pre (fieldsBlob e fs ++ rest)
      f.1 f.2 ((pre.length : Nat) : Int) hd' rfl hf.1 hf.2
    have hoff : ((pre.length : Nat) : Int) + 4 =
        (((pre ++ encU e 2 f.1 ++ encU e 2 f.2).length : Nat) : Int) := by
      simp only [List.length_append, encU_length]
      push_cast
      ring
    have hrec := ih (pre ++ encU e 2 f.1 ++ encU e 2 f.2) rest
      (by rw [hd']; simp [List.append_assoc]) hfs
    rw [List.length_cons, parseFieldsLoop, hstep, except_bind_ok, hoff, hrec,
      except_bind_ok]
    simp only [List.map_cons, List.length_append, encU_length]
    congr 2
    push_cast
    ring

/-- Decoding the encoded STRC structure layouts recovers the structure
references in order. -/
theorem parseStructsLoop_at (e : Endian) (data : List Nat)
    (structs : List (Nat × List (Nat × Nat))) :
    ∀ pre rest : List Nat, data = pre ++ structsBlob e structs ++ rest →
      (∀ s ∈ structs, s.1 < 2 ^ 15 ∧ s.2.length < 2 ^ 15 ∧
        ∀ f ∈ s.2, f.1 < 2 ^ 15 ∧ f.2 < 2 ^ 15) →
      parseStructsLoop e data structs.length ((pre.length : Nat) : Int) =
        .ok (decodedStructs structs,
          ((pre.length + (structsBlob e structs).length : Nat) : Int)) := by
  induction structs with
  | nil =>
    intro pre rest _ _
    simp [parseStructsLoop, decodedStructs, structsBlob]
  | cons s ss ih =>
    intro pre rest hd hb
    obtain ⟨hs1, hs2, hsf⟩ := hb s (List.mem_cons_self s ss)
    have hss : ∀ u ∈ ss, u.1 < 2 ^ 15 ∧ u.2.length < 2 ^ 15 ∧
        ∀ f ∈ u.2, f.1 < 2 ^ 15 ∧ f.2 < 2 ^ 15 :=
      fun u hu => hb u (List.mem_cons_of_mem s hu)
    have hblob : structsBlob e (s :: ss) = encStruct e s ++ structsBlob e ss := by
      simp [structsBlob]
    have hti : unpack16 e data ((pre.length : Nat) : Int) = .ok (s.1 : Int) := by
      apply unpack16_at e data pre
        (encU e 2 s.2.length ++ fieldsBlob e s.2 ++ (structsBlob e ss ++ rest)) s.1
      · rw [hd, hblob]
        simp [encStruct, List.append_assoc]
      · rfl
      · exact hs1
    have hfc : unpack16 e data (((pre.length : Nat) : Int) + 2) =
        .ok (s.2.length : Int) := by
      apply unpack16_at e data (pre ++ encU e 2 s.1)
        (fieldsBlob e s.2 ++ (structsBlob e ss ++ rest)) s.2.length
      · rw [hd, hblob]
        simp [encStruct, List.append_assoc]
      · simp only [List.length_append, encU_length]
        push_cast
        ring
      · exact hs2
    have hoff4 : ((pre.length : Nat) : Int) + 4 =
        (((pre ++ encU e 2 s.1 ++ encU e 2 s.2.length).length : Nat) : Int) := by
      simp only [List.length_append, encU_length]
      push_cast
      ring
    have hflds := parseFieldsLoop_at e data s.2
      (pre ++ encU e 2 s.1 ++ encU e 2 s.2.length) (structsBlob e ss ++ rest)
      (by rw [hd, hblob]; simp [encStruct, List.append_assoc]) hsf
    have hoffrec : (((pre ++ encU e 2 s.1 ++ encU e 2 s.2.length).length +
        4 * s.2.length : Nat) : Int) =
        (((pre ++ encStruct e s).length : Nat) : Int) := by
      simp [List.length_append, encU_length, encStruct_length]
      ring
    have hrec := ih (pre ++ encStruct e s) rest
      (by rw [hd, hblob]; simp [List.append_assoc]) hss
    rw [List.length_cons, parseStructsLoop, hti, except_bind_ok, hfc,
      except_bind_ok, Int.toNat_natCast, hoff4, hflds, except_bind_ok,
      hoffrec, hrec, except_bind_ok]
    simp only [decodedStructs, List.map_cons]
    congr 2
    simp [List.length_append, encStruct_length, hblob]
    ring

/-- Full round trip of the Schema Decoder against the section 4.3 encoder:
decoding an encoded well-formed schema payload reproduces the original
names, types and structures, in order. -/
theorem schema_decode_encode (e : Endian) (names : List (List Nat))
    (types : List (List Nat × Nat)) (structs : List (Nat × List (Nat × Nat)))
    (h : WFSchema names types structs) :
    parseIndexPayload e (encodeSchema e names types structs) =
      .ok ⟨names, decodedTypes types, decodedStructs structs⟩ := by
  obtain ⟨hn31, hnames, ht31, htypes, hs31, hstructs⟩ := h
  have hn0 : ∀ n ∈ names, 0 ∉ n := fun n hn => (hnames n hn).2
  have ht0 : ∀ t ∈ types, 0 ∉ t.1 := fun t ht => (htypes t ht).1.2
  have hsz : ∀ t ∈ types, t.2 < 2 ^ 15 := fun t ht => (htypes t ht).2
  have htag : pySlice (encodeSchema e names types structs)
      (((sec1p e names).length + (sec2p e types).length +
        (sec3p e types).length : Nat) : Int)
      ((((sec1p e names).length + (sec2p e types).length +
        (sec3p e types).length : Nat) : Int) + 4) = strcTag := by
    apply pySlice_at _ (sec1p e names ++ sec2p e types ++ sec3p e types) strcTag
      (encU e 4 structs.length ++ structsBlob e structs)
    · simp [encodeSchema, sec4, List.append_assoc]
    · simp
      ring
    · simp [strcTag]
      ring
  have hcnt : unpack32 e (encodeSchema e names types structs)
      ((((sec1p e names).length + (sec2p e types).length +
        (sec3p e types).length : Nat) : Int) + 4) = .ok (structs.length : Int) := by
    apply unpack32_at e _
      (sec1p e names ++ sec2p e types ++ sec3p e types ++ strcTag)
      (structsBlob e structs) structs.length
    · simp [encodeSchema, sec4, List.append_assoc]
    · simp [strcTag]
      ring
    · exact hs31
  have hoff8 : ((((sec1p e names).length + (sec2p e types).length +
      (sec3p e types).length : Nat) : Int) + 8) =
      (((sec1p e names ++ sec2p e types ++ sec3p e types ++ strcTag ++
        encU e 4 structs.length).length : Nat) : Int) := by
    simp [List.length_append, strcTag, encU_length]
    ring
  have hloop := parseStructsLoop_at e (encodeSchema e names types structs) structs
    (sec1p e names ++ sec2p e types ++ sec3p e types ++ strcTag ++
      encU e 4 structs.length) []
    (by simp [encodeSchema, sec4, List.append_assoc]) hstructs
  rw [parseIndexPayload,
    readTlen_encode e names types structs hn31 hn0 ht31 ht0 hsz, except_bind_ok]
  rw [if_neg (by rw [htag]; simp), hcnt, except_bind_ok, Int.toNat_natCast,
    hoff8, hloop, except_bind_ok]

/-- C8: the Header Decoder rejects an input exactly when its length is not
12, its first seven bytes are not `b'BLENDER'`, its byte 7 is neither of
the two designated arch values (`'-'`/`'_'`), or its byte 8 is neither of
the two designated endian values (`'v'`/`'V'`); every other input is
accepted. -/
theorem parse_header_failure_characterization (header : List Nat) :
    parse_header header = none ↔
      (header.length ≠ 12 ∨ header.take 7 ≠ blenderTag
        ∨ (pySlice header 7 8 ≠ [45] ∧ pySlice header 7 8 ≠ [95])
        ∨ (pySlice header 8 9 ≠ [118] ∧ pySlice header 8 9 ≠ [86])) := by
  unfold parse_header
  by_cases h1 : header.length ≠ 12 ∨ header.take 7 ≠ blenderTag
  · simp only [h1, if_true]
    simp [h1.imp_left id]
    tauto
  · push_neg at h1
    obtain ⟨hlen, htag⟩ := h1
    have hd : ∃ a b c, header.drop 9 = [a, b, c] :=
      List.length_eq_three.mp (by rw [List.length_drop, hlen])
    obtain ⟨a, b, c, hd⟩ := hd
    have hv : (header.drop 9).map (fun x => (x : Int) - 48) =
        [(a : Int) - 48, (b : Int) - 48, (c : Int) - 48] := by
      rw [hd]; rfl
    rw [if_neg (by simp [hlen, htag])]
    simp only [hv]
    by_cases ha1 : pySlice header 7 8 = [45] <;>
      by_cases ha2 : pySlice header 7 8 = [95] <;>
        by_cases he1 : pySlice header 8 9 = [118] <;>
          by_cases he2 : pySlice header 8 9 = [86] <;>
            simp [ha1, ha2, he1, he2, hlen, htag]

/-- C10: the Header Decoder is total (every input yields either facts or
the failure value), and the three version bytes are not validated as
decimal digits: any 12-byte input with valid magic, arch and endian bytes
is accepted, each version component being the raw byte value minus 48. -/
theorem parse_header_total_no_digit_validation :
    (∀ header : List Nat,
        parse_header header = none ∨ ∃ f, parse_header header = some f) ∧
    (∀ a en b9 b10 b11 : Nat, (a = 45 ∨ a = 95) → (en = 118 ∨ en = 86) →
        ∃ f, parse_header [66, 76, 69, 78, 68, 69, 82, a, en, b9, b10, b11] =
            some f ∧
          f.version.major = (b9 : Int) - 48 ∧
          f.version.minor = (b10 : Int) - 48 ∧
          f.version.rev = (b11 : Int) - 48) := by
  constructor
  · intro header
    cases h : parse_header header with
    | none => exact Or.inl rfl
    | some f => exact Or.inr ⟨f, rfl⟩
  · intro a en b9 b10 b11 ha he
    rcases ha with rfl | rfl <;> rcases he with rfl | rfl <;>
      exact ⟨_, rfl, rfl, rfl, rfl⟩

/-- Witness for C10 at a concrete input whose version bytes are not decimal
digits (`120 = 'x'` gives major 72, `32 = ' '` gives minor -16). -/
theorem parse_header_total_no_digit_validation_witness :
    ((45 : Nat) = 45 ∨ (45 : Nat) = 95) ∧ ((118 : Nat) = 118 ∨ (118 : Nat) = 86) ∧
    ∃ f, parse_header [66, 76, 69, 78, 68, 69, 82, 45, 118, 120, 32, 55] =
        some f ∧
      f.version.major = (120 : Int) - 48 ∧
      f.version.minor = (32 : Int) - 48 ∧
      f.version.rev = (55 : Int) - 48 :=
  ⟨Or.inl rfl, Or.inl rfl,
    parse_header_total_no_digit_validation.2 45 118 120 32 55
      (Or.inl rfl) (Or.inl rfl)⟩

/-- C1: decoding a schema payload produced by encoding names, (typeName,
byteSize) pairs and structure layouts per the section 4.3 grammar
reproduces exactly the original names, types and structures sequences, in
order. -/
theorem schema_encode_decode_roundtrip (e : Endian) (names : List (List Nat))
    (types : List (List Nat × Nat)) (structs : List (Nat × List (Nat × Nat)))
    (h : WFSchema names types structs) :
    parseIndexPayload e (encodeSchema e names types structs) =
      .ok ⟨names, decodedTypes types, decodedStructs structs⟩ :=
  schema_decode_encode e names types structs h

/-- Witness for C1 at the concrete example schema. -/
theorem schema_encode_decode_roundtrip_witness :
    WFSchema exNames exTypes exStructs ∧
    parseIndexPayload .Little (encodeSchema .Little exNames exTypes exStructs) =
      .ok ⟨exNames, decodedTypes exTypes, decodedStructs exStructs⟩ :=
  ⟨by unfold WFSchema GoodName; decide,
   schema_encode_decode_roundtrip .Little exNames exTypes exStructs
    (by unfold WFSchema GoodName; decide)⟩

/-- C9: the running offset is a multiple of 4 immediately after steps 2
(names), 3 (type names) and 4 (type lengths), and the alignment step
advances the offset by `4 - (o mod 4)` exactly when `o mod 4` is nonzero. -/
theorem schema_offsets_aligned :
    (∀ o : Int, pyAlign o % 4 = 0) ∧
    (∀ o : Int, o % 4 = 0 → pyAlign o = o) ∧
    (∀ o : Int, o % 4 ≠ 0 → pyAlign o = o + (4 - o % 4)) ∧
    (∀ (e : Endian) (data : List Nat) (ns : NamesStage),
      readNames e data = .ok ns → ns.off % 4 = 0) ∧
    (∀ (e : Endian) (data : List Nat) (ts : TypesStage),
      readTypeNames e data = .ok ts → ts.off % 4 = 0) ∧
    (∀ (e : Endian) (data : List Nat) (tl : TlenStage),
      readTlen e data = .ok tl → tl.off % 4 = 0) := by
  have halign : ∀ o : Int, pyAlign o % 4 = 0 := by
    intro o
    unfold pyAlign
    by_cases h : o % 4 = 0
    · rw [if_pos h]
      exact h
    · rw [if_neg h]
      omega
  have hns : ∀ (e : Endian) (data : List Nat) (ns : NamesStage),
      readNames e data = .ok ns → ns.off % 4 = 0 := by
    intro e data ns h
    unfold readNames at h
    by_cases h1 : pySlice data 0 8 ≠ sdnaTag
    · rw [if_pos h1] at h
      cases h
    · rw [if_neg h1] at h
      cases h2 : unpack32 e data 8 with
      | error er =>
        rw [h2, except_bind_error] at h
        cases h
      | ok nc =>
        rw [h2, except_bind_ok] at h
        cases h
        exact halign _
  have hts : ∀ (e : Endian) (data : List Nat) (ts : TypesStage),
      readTypeNames e data = .ok ts → ts.off % 4 = 0 := by
    intro e data ts h
    unfold readTypeNames at h
    cases h0 : readNames e data with
    | error er =>
      rw [h0, except_bind_error] at h
      cases h
    | ok ns =>
      rw [h0, except_bind_ok] at h
      by_cases h1 : pySlice data ns.off (ns.off + 4) ≠ typeTag
      · rw [if_pos h1] at h
        cases h
      · rw [if_neg h1] at h
        cases h2 : unpack32 e data (ns.off + 4) with
        | error er =>
          rw [h2, except_bind_error] at h
          cases h
        | ok tc =>
          rw [h2, except_bind_ok] at h
          cases h
          exact halign _
  have htl : ∀ (e : Endian) (data : List Nat) (tl : TlenStage),
      readTlen e data = .ok tl → tl.off % 4 = 0 := by
    intro e data tl h
    unfold readTlen at h
    cases h0 : readTypeNames e data with
    | error er =>
      rw [h0, except_bind_error] at h
      cases h
    | ok ts =>
      rw [h0, except_bind_ok] at h
      by_cases h1 : pySlice data ts.off (ts.off + 4) ≠ tlenTag
      · rw [if_pos h1] at h
        cases h
      · rw [if_neg h1] at h
        simp only at h
        cases h2 : iterUnpack16 e
            (pySlice data (ts.off + 4) (ts.off + 4 + 2 * ts.type_count)) with
        | error er =>
          rw [h2, except_bind_error] at h
          cases h
        | ok sizes =>
          rw [h2, except_bind_ok] at h
          cases h
          exact halign _
  refine ⟨halign, ?_, ?_, hns, hts, htl⟩
  · intro o h
    unfold pyAlign
    rw [if_pos h]
  · intro o h
    unfold pyAlign
    rw [if_neg h]

/-- Witness for C9: the alignment step at the concrete offset 5, and the
aligned stage offsets on the concrete example payload (16, 28 and 36). -/
theorem schema_offsets_aligned_witness :
    ((5 : Int) % 4 ≠ 0 ∧ pyAlign 5 = 5 + (4 - 5 % 4)) ∧
    (readNames .Little exPayload = .ok ⟨exNames, 16⟩ ∧ (16 : Int) % 4 = 0) ∧
    (readTlen .Little exPayload =
      .ok ⟨exNames, decodedTypes exTypes, 36⟩ ∧ (36 : Int) % 4 = 0) :=
  ⟨⟨by decide, schema_offsets_aligned.2.2.1 5 (by decide)⟩,
   ⟨by decide,
     schema_offsets_aligned.2.2.2.1 .Little exPayload ⟨exNames, 16⟩ (by decide)⟩,
   ⟨by decide,
     schema_offsets_aligned.2.2.2.2.2 .Little exPayload
       ⟨exNames, decodedTypes exTypes, 36⟩ (by decide)⟩⟩

theorem unpackFromRaw_error (e : Endian) (w : Nat) (data : List Nat) (off : Int)
    (er : BErr) (h : unpackFromRaw e w data off = .error er) : er = .structError := by
  unfold unpackFromRaw at h
  by_cases hc : (0 : Int) ≤ (if off < 0 then (data.length : Int) + off else off) ∧
      (if off < 0 then (data.length : Int) + off else off) + w ≤ (data.length : Int)
  · rw [if_pos hc] at h
    cases h
  · rw [if_neg hc] at h
    cases h
    rfl

theorem unpack32_error (e : Endian) (data : List Nat) (off : Int) (er : BErr)
    (h : unpack32 e data off = .error er) : er = .structError := by
  unfold unpack32 at h
  cases h0 : unpackFromRaw e 4 data off with
  | error er2 =>
    rw [h0] at h
    simp only [Except.map] at h
    injection h with h2
    rw [← h2]
    exact unpackFromRaw_error e 4 data off er2 h0
  | ok u =>
    rw [h0] at h
    simp only [Except.map] at h
    cases h

theorem unpack16_error (e : Endian) (data : List Nat) (off : Int) (er : BErr)
    (h : unpack16 e data off = .error er) : er = .structError := by
  unfold unpack16 at h
  cases h0 : unpackFromRaw e 2 data off with
  | error er2 =>
    rw [h0] at h
    simp only [Except.map] at h
    injection h with h2
    rw [← h2]
    exact unpackFromRaw_error e 2 data off er2 h0
  | ok u =>
    rw [h0] at h
    simp only [Except.map] at h
    cases h

theorem iterUnpack16_error (e : Endian) (bs : List Nat) (er : BErr)
    (h : iterUnpack16 e bs = .error er) : er = .structError := by
  unfold iterUnpack16 at h
  by_cases hc : bs.length % 2 = 0
  · rw [if_pos hc] at h
    cases h
  · rw [if_neg hc] at h
    cases h
    rfl

theorem unpackStructField_error (e : Endian) (data : List Nat) (off : Int)
    (er : BErr) (h : unpackStructField e data off = .error er) :
    er = .structError := by
  unfold unpackStructField at h
  by_cases hc : (0 : Int) ≤ (if off < 0 then (data.length : Int) + off else off) ∧
      (if off < 0 then (data.length : Int) + off else off) + 4 ≤ (data.length : Int)
  · rw [if_pos hc] at h
    cases h
  · rw [if_neg hc] at h
    cases h
    rfl

theorem parseFieldsLoop_error (e : Endian) (data : List Nat) :
    ∀ (k : Nat) (o : Int) (er : BErr),
      parseFieldsLoop e data k o = .error er → er = .structError := by
  intro k
  induction k with
  | zero =>
    intro o er h
    cases h
  | succ k ih =>
    intro o er h
    rw [parseFieldsLoop] at h
    cases h0 : unpackStructField e data o with
    | error er2 =>
      rw [h0, except_bind_error] at h
      injection h with h2
      rw [← h2]
      exact unpackStructField_error e data o er2 h0
    | ok f =>
      rw [h0, except_bind_ok] at h
      cases h1 : parseFieldsLoop e data k (o + 4) with
      | error er3 =>
        rw [h1, except_bind_error] at h
        injection h with h2
        rw [← h2]
        exact ih (o + 4) er3 h1
      | ok p =>
        rw [h1, except_bind_ok] at h
        cases h

theorem parseStructsLoop_error (e : Endian) (data : List Nat) :
    ∀ (n : Nat) (o : Int) (er : BErr),
      parseStructsLoop e data n o = .error er → er = .structError := by
  intro n
  induction n with
  | zero =>
    intro o er h
    cases h
  | succ n ih =>
    intro o er h
    rw [parseStructsLoop] at h
    cases h0 : unpack16 e data o with
    | error er2 =>
      rw [h0, except_bind_error] at h
      injection h with h2
      rw [← h2]
      exact unpack16_error e data o er2 h0
    | ok ti =>
      rw [h0, except_bind_ok] at h
      cases h1 : unpack16 e data (o + 2) with
      | error er3 =>
        rw [h1, except_bind_error] at h
        injection h with h2
        rw [← h2]
        exact unpack16_error e data (o + 2) er3 h1
      | ok fc =>
        rw [h1, except_bind_ok] at h
        cases h2 : parseFieldsLoop e data fc.toNat (o + 4) with
        | error er4 =>
          rw [h2, except_bind_error] at h
          injection h with h3
          rw [← h3]
          exact parseFieldsLoop_error e data fc.toNat (o + 4) er4 h2
        | ok fp =>
          rw [h2, except_bind_ok] at h
          cases h3 : parseStructsLoop e data n fp.2 with
          | error er5 =>
            rw [h3, except_bind_error] at h
            injection h with h4
            rw [← h4]
            exact ih fp.2 er5 h3
          | ok sp =>
            rw [h3, except_bind_ok] at h
            cases h

/-- The name stage fails with `MalformedIndex` exactly on an `SDNANAME`
mismatch. -/
theorem readNames_malformed_iff (e : Endian) (data : List Nat) :
    readNames e data = .error .malformedIndex ↔ pySlice data 0 8 ≠ sdnaTag := by
  unfold readNames
  by_cases h1 : pySlice data 0 8 ≠ sdnaTag
  · rw [if_pos h1]
    simp [h1]
  · rw [if_neg h1]
    cases h2 : unpack32 e data 8 with
    | error er =>
      rw [except_bind_error]
      have her := unpack32_error e data 8 er h2
      subst her
      constructor
      · intro h
        injection h with h
        cases h
      · intro h
        exact absurd h h1
    | ok nc =>
      rw [except_bind_ok]
      constructor
      · intro h
        cases h
      · intro h
        exact absurd h h1

/-- The type-name stage fails with `MalformedIndex` exactly when the name
stage does, or the name stage succeeds and `TYPE` mismatches at its
computed offset. -/
theorem readTypeNames_malformed_iff (e : Endian) (data : List Nat) :
    readTypeNames e data = .error .malformedIndex ↔
      (readNames e data = .error .malformedIndex ∨
       ∃ ns, readNames e data = .ok ns ∧
         pySlice data ns.off (ns.off + 4) ≠ typeTag) := by
  unfold readTypeNames
  cases h0 : readNames e data with
  | error er =>
    rw [except_bind_error]
    constructor
    · intro h
      injection h with h2
      exact Or.inl (by rw [h2])
    · intro h
      rcases h with h | ⟨ns, hns, _⟩
      · injection h with h2
        rw [h2]
      · exact Except.noConfusion hns
  | ok ns =>
    rw [except_bind_ok]
    by_cases h1 : pySlice data ns.off (ns.off + 4) ≠ typeTag
    · rw [if_pos h1]
      simp only [true_iff]
      exact Or.inr ⟨ns, rfl, h1⟩
    · rw [if_neg h1]
      push_neg at h1
      have hrhs : ¬ ((Except.ok ns : Except BErr NamesStage) =
            .error .malformedIndex ∨
          ∃ ns2, (Except.ok ns : Except BErr NamesStage) = .ok ns2 ∧
            pySlice data ns2.off (ns2.off + 4) ≠ typeTag) := by
        intro h
        rcases h with h | ⟨ns2, hns2, htag⟩
        · exact Except.noConfusion h
        · injection hns2 with hns2
          subst hns2
          exact absurd h1 htag
      cases h2 : unpack32 e data (ns.off + 4) with
      | error er =>
        rw [except_bind_error]
        have her := unpack32_error e data (ns.off + 4) er h2
        subst her
        constructor
        · intro h
          injection h with h
          cases h
        · intro h
          exact absurd h hrhs
      | ok tc =>
        rw [except_bind_ok]
        constructor
        · intro h
          cases h
        · intro h
          exact absurd h hrhs

/-- The size-table stage fails with `MalformedIndex` exactly when an
earlier stage does, or the type-name stage succeeds and `TLEN` mismatches
at its computed offset. -/
theorem readTlen_malformed_iff (e : Endian) (data : List Nat) :
    readTlen e data = .error .malformedIndex ↔
      (readTypeNames e data = .error .malformedIndex ∨
       ∃ ts, readTypeNames e data = .ok ts ∧
         pySlice data ts.off (ts.off + 4) ≠ tlenTag) := by
  unfold readTlen
  cases h0 : readTypeNames e data with
  | error er =>
    rw [except_bind_error]
    constructor
    · intro h
      injection h with h2
      exact Or.inl (by rw [h2])
    · intro h
      rcases h with h | ⟨ts, hts, _⟩
      · injection h with h2
        rw [h2]
      · exact Except.noConfusion hts
  | ok ts =>
    rw [except_bind_ok]
    by_cases h1 : pySlice data ts.off (ts.off + 4) ≠ tlenTag
    · rw [if_pos h1]
      simp only [true_iff]
      exact Or.inr ⟨ts, rfl, h1⟩
    · rw [if_neg h1]
      push_neg at h1
      simp only
      have hrhs : ¬ ((Except.ok ts : Except BErr TypesStage) =
            .error .malformedIndex ∨
          ∃ ts2, (Except.ok ts : Except BErr TypesStage) = .ok ts2 ∧
            pySlice data ts2.off (ts2.off + 4) ≠ tlenTag) := by
        intro h
        rcases h with h | ⟨ts2, hts2, htag⟩
        · exact Except.noConfusion h
        · injection hts2 with hts2
          subst hts2
          exact absurd h1 htag
      cases h2 : iterUnpack16 e
          (pySlice data (ts.off + 4) (ts.off + 4 + 2 * ts.type_count)) with
      | error er =>
        rw [except_bind_error]
        have her := iterUnpack16_error e _ er h2
        subst her
        constructor
        · intro h
          injection h with h
          cases h
        · intro h
          exact absurd h hrhs
      | ok sizes =>
        rw [except_bind_ok]
        constructor
        · intro h
          cases h
        · intro h
          exact absurd h hrhs

/-- C5: the Schema Decoder fails with `MalformedIndex` exactly when one of
the literal sub-tags `SDNANAME` / `TYPE` / `TLEN` / `STRC` does not match
the payload at its computed offset; in particular, the example payload
whose `TLEN` tag is replaced by garbage fails with `MalformedIndex`. -/
theorem malformed_index_iff_tag_mismatch :
    (∀ (e : Endian) (data : List Nat),
      parseIndexPayload e data = .error .malformedIndex ↔
        (pySlice data 0 8 ≠ sdnaTag
         ∨ (∃ ns, readNames e data = .ok ns ∧
             pySlice data ns.off (ns.off + 4) ≠ typeTag)
         ∨ (∃ ts, readTypeNames e data = .ok ts ∧
             pySlice data ts.off (ts.off + 4) ≠ tlenTag)
         ∨ (∃ tl, readTlen e data = .ok tl ∧
             pySlice data tl.off (tl.off + 4) ≠ strcTag))) ∧
    parseIndexPayload .Little exPayloadTlenGarbled = .error .malformedIndex := by
  constructor
  · intro e data
    have hchain : readTlen e data = .error .malformedIndex ↔
        (pySlice data 0 8 ≠ sdnaTag
         ∨ (∃ ns, readNames e data = .ok ns ∧
             pySlice data ns.off (ns.off + 4) ≠ typeTag)
         ∨ (∃ ts, readTypeNames e data = .ok ts ∧
             pySlice data ts.off (ts.off + 4) ≠ tlenTag)) := by
      rw [readTlen_malformed_iff, readTypeNames_malformed_iff,
        readNames_malformed_iff, or_assoc]
    unfold parseIndexPayload
    cases h0 : readTlen e data with
    | error er =>
      rw [except_bind_error]
      constructor
      · intro h
        injection h with h2
        subst h2
        rcases hchain.mp h0 with ha | hb | hc
        · exact Or.inl ha
        · exact Or.inr (Or.inl hb)
        · exact Or.inr (Or.inr (Or.inl hc))
      · intro h
        rcases h with h | h | h | ⟨tl, htl, _⟩
        · have hh := h0.symm.trans (hchain.mpr (Or.inl h))
          injection hh with hh
          rw [hh]
        · have hh := h0.symm.trans (hchain.mpr (Or.inr (Or.inl h)))
          injection hh with hh
          rw [hh]
        · have hh := h0.symm.trans (hchain.mpr (Or.inr (Or.inr h)))
          injection hh with hh
          rw [hh]
        · exact Except.noConfusion htl
    | ok tl =>
      rw [except_bind_ok]
      have hnot : ¬ readTlen e data = .error .malformedIndex := by
        rw [h0]
        intro hc
        cases hc
      by_cases h1 : pySlice data tl.off (tl.off + 4) ≠ strcTag
      · rw [if_pos h1]
        simp only [true_iff]
        exact Or.inr (Or.inr (Or.inr ⟨tl, rfl, h1⟩))
      · rw [if_neg h1]
        push_neg at h1
        have hrhs : ¬ (pySlice data 0 8 ≠ sdnaTag
            ∨ (∃ ns, readNames e data = .ok ns ∧
                pySlice data ns.off (ns.off + 4) ≠ typeTag)
            ∨ (∃ ts, readTypeNames e data = .ok ts ∧
                pySlice data ts.off (ts.off + 4) ≠ tlenTag)
            ∨ (∃ tl2, (Except.ok tl : Except BErr TlenStage) = .ok tl2 ∧
                pySlice data tl2.off (tl2.off + 4) ≠ strcTag)) := by
          intro h
          rcases h with h | h | h | ⟨tl2, htl2, htag⟩
          · exact hnot (hchain.mpr (Or.inl h))
          · exact hnot (hchain.mpr (Or.inr (Or.inl h)))
          · exact hnot (hchain.mpr (Or.inr (Or.inr h)))
          · injection htl2 with htl2
            subst htl2
            exact absurd h1 htag
        cases h2 : unpack32 e data (tl.off + 4) with
        | error er =>
          rw [except_bind_error]
          have her := unpack32_error e data (tl.off + 4) er h2
          subst her
          constructor
          · intro h
            injection h with h
            cases h
          · intro h
            exact absurd h hrhs
        | ok sc =>
          rw [except_bind_ok]
          cases h3 : parseStructsLoop e data sc.toNat (tl.off + 8) with
          | error er =>
            rw [except_bind_error]
            have her := parseStructsLoop_error e data sc.toNat (tl.off + 8) er h3
            subst her
            constructor
            · intro h
              injection h with h
              cases h
            · intro h
              exact absurd h hrhs
          | ok sp =>
            rw [except_bind_ok]
            constructor
            · intro h
              cases h
            · intro h
              exact absurd h hrhs
  · rfl

/-- Counterexample for C6: a payload with valid tags whose single
structure names type index 7, although only one type exists.  The decoder
performs no bounds validation and returns the dangling index. -/
theorem schema_decoder_dangling_index_cex :
    parseIndexPayload .Little exBadPayload =
      .ok ⟨[[110]], [([116], (4 : Int))], [⟨7, []⟩]⟩ ∧
    ¬ SchemaInBounds ⟨[[110]], [([116], (4 : Int))], [⟨7, []⟩]⟩ := by
  constructor
  · rfl
  · unfold SchemaInBounds
    decide

/-- C6 amended: the Schema Decoder copies the 16-bit indices of the
payload verbatim without bounds validation; consequently the returned
`SchemaIndex` has no dangling indices whenever the encoded schema's
indices were in range. -/
theorem schema_decoder_bounds_for_wellformed (e : Endian)
    (names : List (List Nat)) (types : List (List Nat × Nat))
    (structs : List (Nat × List (Nat × Nat))) (h : WFSchema names types structs)
    (hidx : ∀ s ∈ structs, s.1 < types.length ∧
      ∀ f ∈ s.2, f.1 < types.length ∧ f.2 < names.length) :
    ∃ idx, parseIndexPayload e (encodeSchema e names types structs) = .ok idx ∧
      SchemaInBounds idx := by
  refine ⟨⟨names, decodedTypes types, decodedStructs structs⟩,
    schema_decode_encode e names types structs h, ?_⟩
  intro s hs
  simp only [decodedStructs, List.mem_map] at hs
  obtain ⟨s0, hs0, rfl⟩ := hs
  obtain ⟨h1, h2⟩ := hidx s0 hs0
  have hlen : (decodedTypes types).length = types.length := by
    simp [decodedTypes]
  constructor
  · simp only [hlen]
    exact_mod_cast h1
  · intro f hf
    simp only [List.mem_map] at hf
    obtain ⟨f0, hf0, rfl⟩ := hf
    obtain ⟨h3, h4⟩ := h2 f0 hf0
    constructor
    · simp only [hlen]
      exact_mod_cast h3
    · simp only
      exact_mod_cast h4

/-- Witness for the amended C6 at the concrete in-range example schema. -/
theorem schema_decoder_bounds_for_wellformed_witness :
    WFSchema exNames exTypes exStructs ∧
    (∀ s ∈ exStructs, s.1 < exTypes.length ∧
      ∀ f ∈ s.2, f.1 < exTypes.length ∧ f.2 < exNames.length) ∧
    ∃ idx, parseIndexPayload .Little (encodeSchema .Little exNames exTypes exStructs) =
        .ok idx ∧ SchemaInBounds idx :=
  ⟨by unfold WFSchema GoodName; decide, by decide,
   schema_decoder_bounds_for_wellformed .Little exNames exTypes exStructs
     (by unfold WFSchema GoodName; decide) (by decide)⟩

theorem keepBlock_of_dna1 (p : BlockHead × Nat) (h : p.1.code = dna1Tag) :
    keepBlock p = false := by
  simp [keepBlock, h]

theorem keepBlock_of_endb (p : BlockHead × Nat) (h : p.1.code = endbTag) :
    keepBlock p = false := by
  simp [keepBlock, h]

theorem keepBlock_of_other (p : BlockHead × Nat) (h1 : p.1.code ≠ dna1Tag)
    (h2 : p.1.code ≠ endbTag) : keepBlock p = true := by
  simp [keepBlock, h1, h2]

theorem dna1_ne_endb : dna1Tag ≠ endbTag := by decide

/-- Characterization of a completed scan loop: the directory is the trace
filtered of `DNA1`/`ENDB`; a loop that never saw `ENDB` ran to
end-of-stream; a loop that stopped did so exactly at the first `ENDB`. -/
theorem scanLoop_char (c : ScanCfg) (data : List Nat) :
    ∀ (fuel pos : Nat) (idx : Option BlendIndex)
      (acc : List (BlockHead × Nat)) (s : ScanDone),
      scanLoop c data fuel pos idx acc = .ok s →
      (s.dir = acc ++ (scanTrace c data fuel pos).filter keepBlock ∧
       (s.endFound = false → s.pos = data.length ∧
         ∀ p ∈ scanTrace c data fuel pos, p.1.code ≠ endbTag) ∧
       (s.endFound = true → ∃ pre hd off,
         scanTrace c data fuel pos = pre ++ [(hd, off)] ∧ hd.code = endbTag ∧
         ∀ p ∈ pre, p.1.code ≠ endbTag)) := by
  intro fuel
  induction fuel with
  | zero =>
    intro pos idx acc s h
    cases h
  | succ fuel ih =>
    intro pos idx acc s h
    rw [scanLoop] at h
    by_cases hpos : pos = data.length
    · rw [if_pos hpos] at h
      injection h with h
      subst h
      refine ⟨?_, ?_, ?_⟩
      · rw [scanTrace, if_pos hpos]
        simp
      · intro _
        refine ⟨hpos, ?_⟩
        rw [scanTrace, if_pos hpos]
        intro p hp
        cases hp
      · intro hco
        cases hco
    · rw [if_neg hpos] at h
      cases hub : unpackBlockHead c (pyRead data pos (headerSize c.arch)).1 with
      | none =>
        rw [hub] at h
        cases h
      | some head =>
        rw [hub] at h
        dsimp only at h
        by_cases hdna : head.code = dna1Tag
        · rw [if_pos hdna] at h
          cases hip : parseIndexOnHandle c data
              (pyRead data pos (headerSize c.arch)).2 head.size with
          | error er =>
            rw [hip, except_bind_error] at h
            cases h
          | ok ip =>
            rw [hip, except_bind_ok] at h
            obtain ⟨ih1, ih2, ih3⟩ := ih _ _ _ _ h
            have htr : scanTrace c data (fuel + 1) pos =
                (head, (pyRead data pos (headerSize c.arch)).2) ::
                  scanTrace c data fuel (pyRead data ip.2 head.size).2 := by
              rw [scanTrace, if_neg hpos, hub]
              dsimp only
              rw [if_pos hdna, hip]
            refine ⟨?_, ?_, ?_⟩
            · rw [htr, List.filter_cons, keepBlock_of_dna1 _ hdna]
              simpa using ih1
            · intro hef
              obtain ⟨hp, hall⟩ := ih2 hef
              refine ⟨hp, ?_⟩
              rw [htr]
              intro p hpm
              rcases List.mem_cons.mp hpm with rfl | hmem
              · simpa [hdna] using dna1_ne_endb
              · exact hall p hmem
            · intro hef
              obtain ⟨pre, hd, off, htr', hcode, hpre⟩ := ih3 hef
              refine ⟨(head, (pyRead data pos (headerSize c.arch)).2) :: pre,
                hd, off, ?_, hcode, ?_⟩
              · rw [htr, htr']
                rfl
              · intro p hpm
                rcases List.mem_cons.mp hpm with rfl | hmem
                · simpa [hdna] using dna1_ne_endb
                · exact hpre p hmem
        · rw [if_neg hdna] at h
          by_cases hendb : head.code = endbTag
          · rw [if_pos hendb] at h
            injection h with h
            subst h
            have htr : scanTrace c data (fuel + 1) pos =
                [(head, (pyRead data pos (headerSize c.arch)).2)] := by
              rw [scanTrace, if_neg hpos, hub]
              dsimp only
              rw [if_neg hdna, if_pos hendb]
            refine ⟨?_, ?_, ?_⟩
            · rw [htr, List.filter_cons, keepBlock_of_endb _ hendb]
              simp
            · intro hco
              cases hco
            · intro _
              refine ⟨[], head, (pyRead data pos (headerSize c.arch)).2, htr,
                hendb, ?_⟩
              intro p hp
              cases hp
          · rw [if_neg hendb] at h
            obtain ⟨ih1, ih2, ih3⟩ := ih _ _ _ _ h
            have htr : scanTrace c data (fuel + 1) pos =
                (head, (pyRead data pos (headerSize c.arch)).2) ::
                  scanTrace c data fuel
                    (pyRead data (pyRead data pos (headerSize c.arch)).2
                      head.size).2 := by
              rw [scanTrace, if_neg hpos, hub]
              dsimp only
              rw [if_neg hdna, if_neg hendb]
            refine ⟨?_, ?_, ?_⟩
            · rw [htr, List.filter_cons, keepBlock_of_other _ hdna hendb]
              rw [ih1]
              simp
            · intro hef
              obtain ⟨hp, hall⟩ := ih2 hef
              refine ⟨hp, ?_⟩
              rw [htr]
              intro p hpm
              rcases List.mem_cons.mp hpm with rfl | hmem
              · simpa using hendb
              · exact hall p hmem
            · intro hef
              obtain ⟨pre, hd, off, htr', hcode, hpre⟩ := ih3 hef
              refine ⟨(head, (pyRead data pos (headerSize c.arch)).2) :: pre,
                hd, off, ?_, hcode, ?_⟩
              · rw [htr, htr']
                rfl
              · intro p hpm
                rcases List.mem_cons.mp hpm with rfl | hmem
                · simpa using hendb
                · exact hpre p hmem

/-- C2: on a successful scan, the returned directory is exactly the
on-disk block sequence filtered of the `DNA1` and `ENDB` blocks — each
remaining block appears once, in order, with its payload offset — and in
particular no `DNA1` or `ENDB` block is in the directory. -/
theorem block_directory_excludes_dna1_endb (c : ScanCfg) (data : List Nat)
    (dir : List (BlockHead × Nat)) (bidx : BlendIndex)
    (h : parse_blocks c data = .ok (dir, bidx)) :
    dir = (scanTrace c data (data.length + 1) 12).filter keepBlock ∧
    ∀ p ∈ dir, p.1.code ≠ dna1Tag ∧ p.1.code ≠ endbTag := by
  unfold parse_blocks at h
  cases hs : scanLoop c data (data.length + 1) 12 none [] with
  | error er =>
    rw [hs, except_bind_error] at h
    cases h
  | ok s =>
    rw [hs, except_bind_ok] at h
    cases hidx : s.idx with
    | none =>
      rw [hidx] at h
      cases h
    | some b =>
      rw [hidx] at h
      dsimp only at h
      by_cases hef : s.endFound
      · rw [if_pos hef] at h
        injection h with h
        injection h with h1 h2
        obtain ⟨c1, _, _⟩ := scanLoop_char c data (data.length + 1) 12 none [] s hs
        rw [List.nil_append] at c1
        constructor
        · rw [← h1, c1]
        · intro p hp
          rw [← h1, c1] at hp
          exact of_decide_eq_true (by simpa [keepBlock] using (List.mem_filter.mp hp).2)
      · rw [if_neg hef] at h
        cases h

/-- Witness for C2 on the concrete example file: the directory holds
exactly the one `TEST` block with its payload offset 32. -/
theorem block_directory_excludes_dna1_endb_witness :
    parse_blocks exCfg exFile =
      .ok ([(⟨[84, 69, 83, 84], 4, 0, 0, 0⟩, 32)], exIndex) ∧
    ([((⟨[84, 69, 83, 84], 4, 0, 0, 0⟩ : BlockHead), (32 : Nat))] =
        (scanTrace exCfg exFile (exFile.length + 1) 12).filter keepBlock ∧
      ∀ p ∈ [((⟨[84, 69, 83, 84], 4, 0, 0, 0⟩ : BlockHead), (32 : Nat))],
        p.1.code ≠ dna1Tag ∧ p.1.code ≠ endbTag) :=
  ⟨by rfl,
   block_directory_excludes_dna1_endb exCfg exFile
     [(⟨[84, 69, 83, 84], 4, 0, 0, 0⟩, 32)] exIndex (by rfl)⟩

/-- C3: the scanner stops exactly at the first `ENDB` block; a loop that
never saw `ENDB` ran to end-of-stream; end-of-stream without a decoded
schema fails `MissingIndex`, and end-of-stream with a schema but no
terminator fails `MissingTerminator` — both conditions are checked. -/
theorem scanner_stop_and_eos_errors (c : ScanCfg) (data : List Nat)
    (s : ScanDone) (h : scanLoop c data (data.length + 1) 12 none [] = .ok s) :
    (s.endFound = true → ∃ pre hd off,
      scanTrace c data (data.length + 1) 12 = pre ++ [(hd, off)] ∧
      hd.code = endbTag ∧ ∀ p ∈ pre, p.1.code ≠ endbTag) ∧
    (s.endFound = false → s.pos = data.length ∧
      ∀ p ∈ scanTrace c data (data.length + 1) 12, p.1.code ≠ endbTag) ∧
    (s.idx = none → parse_blocks c data = .error .missingIndex) ∧
    (∀ bidx, s.idx = some bidx → s.endFound = false →
      parse_blocks c data = .error .missingTerminator) := by
  obtain ⟨_, c2, c3⟩ := scanLoop_char c data (data.length + 1) 12 none [] s h
  refine ⟨c3, c2, ?_, ?_⟩
  · intro hnone
    unfold parse_blocks
    rw [h, except_bind_ok, hnone]
  · intro bidx hsome hef
    unfold parse_blocks
    rw [h, except_bind_ok, hsome]
    dsimp only
    rw [if_neg (by rw [hef]; exact Bool.false_ne_true)]

/-- Witness for C3 on two concrete streams: `ENDB` with no `DNA1` fails
`MissingIndex`; a stream ending after the schema block with no `ENDB`
fails `MissingTerminator`. -/
theorem scanner_stop_and_eos_errors_witness :
    (scanLoop exCfg exNoDnaFile (exNoDnaFile.length + 1) 12 none [] =
        .ok ⟨[], none, true, 32⟩ ∧
      parse_blocks exCfg exNoDnaFile = .error .missingIndex) ∧
    (scanLoop exCfg exNoEndbFile (exNoEndbFile.length + 1) 12 none [] =
        .ok ⟨[], some exIndex, false, 84⟩ ∧
      parse_blocks exCfg exNoEndbFile = .error .missingTerminator) :=
  ⟨⟨by rfl,
    (scanner_stop_and_eos_errors exCfg exNoDnaFile ⟨[], none, true, 32⟩
      (by rfl)).2.2.1 rfl⟩,
   ⟨by rfl,
    (scanner_stop_and_eos_errors exCfg exNoEndbFile ⟨[], some exIndex, false, 84⟩
      (by rfl)).2.2.2 exIndex rfl rfl⟩⟩

theorem headerSize_pos (a : Arch) : 0 < headerSize a := by
  cases a <;> decide

theorem pyRead_snd_nat (data : List Nat) (pos n : Nat)
    (h : pos + n ≤ data.length) : (pyRead data pos ((n : Nat) : Int)).2 = pos + n := by
  unfold pyRead
  rw [if_neg (not_lt.mpr (Int.natCast_nonneg _)), Int.toNat_natCast]
  dsimp only
  omega

theorem pyRead_snd_int (data : List Nat) (pos : Nat) (sz : Int) (h0 : 0 ≤ sz)
    (h : pos + sz.toNat ≤ data.length) : (pyRead data pos sz).2 = pos + sz.toNat := by
  unfold pyRead
  rw [if_neg (not_lt.mpr h0)]
  dsimp only
  omega

/-- C4: after the scanner decodes a `DNA1` block whose payload starts at
`pos + headerSize` and fits the stream, the schema decode restores the
stream to the payload start, and the next loop iteration reads from
exactly `payloadStart + payloadSize` — independent of how much payload the
Schema Decoder consumed internally. -/
theorem scanner_resumes_after_schema_block (c : ScanCfg) (data : List Nat)
    (fuel pos : Nat) (idx : Option BlendIndex) (dir : List (BlockHead × Nat))
    (head : BlockHead) (bidx : BlendIndex)
    (hun : unpackBlockHead c (pyRead data pos (headerSize c.arch)).1 = some head)
    (hcode : head.code = dna1Tag)
    (hsz : 0 ≤ head.size)
    (hfit : pos + headerSize c.arch + head.size.toNat ≤ data.length)
    (hidxp : parseIndexPayload c.endian
      (pyRead data (pos + headerSize c.arch) head.size).1 = .ok bidx) :
    parseIndexOnHandle c data (pos + headerSize c.arch) head.size =
      .ok (bidx, pos + headerSize c.arch) ∧
    scanLoop c data (fuel + 1) pos idx dir =
      scanLoop c data fuel (pos + headerSize c.arch + head.size.toNat)
        (some bidx) dir := by
  have hhp := headerSize_pos c.arch
  have hrd2 : (pyRead data pos ((headerSize c.arch : Nat) : Int)).2 =
      pos + headerSize c.arch :=
    pyRead_snd_nat data pos (headerSize c.arch) (by omega)
  have h1 : parseIndexOnHandle c data (pos + headerSize c.arch) head.size =
      .ok (bidx, pos + headerSize c.arch) := by
    unfold parseIndexOnHandle
    rw [hidxp, except_bind_ok]
  refine ⟨h1, ?_⟩
  rw [scanLoop, if_neg (by omega : ¬ pos = data.length), hun]
  dsimp only
  rw [if_pos hcode, hrd2, h1, except_bind_ok]
  rw [pyRead_snd_int data (pos + headerSize c.arch) head.size hsz (by omega)]

/-- Witness for C4 at the `DNA1` block of the concrete example file
(header at offset 36, payload at 56, size 52, next header read at 108). -/
theorem scanner_resumes_after_schema_block_witness :
    unpackBlockHead exCfg (pyRead exFile 36 (headerSize exCfg.arch)).1 =
      some ⟨[68, 78, 65, 49], 52, 0, 0, 0⟩ ∧
    (0 : Int) ≤ (52 : Int) ∧
    36 + headerSize exCfg.arch + (52 : Int).toNat ≤ exFile.length ∧
    parseIndexPayload exCfg.endian (pyRead exFile (36 + headerSize exCfg.arch)
      ((52 : Int))).1 = .ok exIndex ∧
    (parseIndexOnHandle exCfg exFile (36 + headerSize exCfg.arch) 52 =
        .ok (exIndex, 36 + headerSize exCfg.arch) ∧
      scanLoop exCfg exFile 93 36 none
          [(⟨[84, 69, 83, 84], 4, 0, 0, 0⟩, 32)] =
        scanLoop exCfg exFile 92 (36 + headerSize exCfg.arch + (52 : Int).toNat)
          (some exIndex) [(⟨[84, 69, 83, 84], 4, 0, 0, 0⟩, 32)]) :=
  ⟨by rfl, by decide, by decide, by rfl,
   scanner_resumes_after_schema_block exCfg exFile 92 36 none
     [(⟨[84, 69, 83, 84], 4, 0, 0, 0⟩, 32)] ⟨[68, 78, 65, 49], 52, 0, 0, 0⟩
     exIndex (by rfl) (by rfl) (by decide) (by decide) (by rfl)⟩

theorem readNames_error_kinds (e : Endian) (data : List Nat) (er : BErr)
    (h : readNames e data = .error er) :
    er = .malformedIndex ∨ er = .structError := by
  unfold readNames at h
  by_cases h1 : pySlice data 0 8 ≠ sdnaTag
  · rw [if_pos h1] at h
    injection h with h
    exact Or.inl h.symm
  · rw [if_neg h1] at h
    cases h2 : unpack32 e data 8 with
    | error er2 =>
      rw [h2, except_bind_error] at h
      injection h with h
      rw [← h]
      exact Or.inr (unpack32_error e data 8 er2 h2)
    | ok nc =>
      rw [h2, except_bind_ok] at h
      cases h

theorem readTypeNames_error_kinds (e : Endian) (data : List Nat) (er : BErr)
    (h : readTypeNames e data = .error er) :
    er = .malformedIndex ∨ er = .structError := by
  unfold readTypeNames at h
  cases h0 : readNames e data with
  | error er2 =>
    rw [h0, except_bind_error] at h
    injection h with h
    rw [← h]
    exact readNames_error_kinds e data er2 h0
  | ok ns =>
    rw [h0, except_bind_ok] at h
    by_cases h1 : pySlice data ns.off (ns.off + 4) ≠ typeTag
    · rw [if_pos h1] at h
      injection h with h
      exact Or.inl h.symm
    · rw [if_neg h1] at h
      cases h2 : unpack32 e data (ns.off + 4) with
      | error er2 =>
        rw [h2, except_bind_error] at h
        injection h with h
        rw [← h]
        exact Or.inr (unpack32_error e data (ns.off + 4) er2 h2)
      | ok tc =>
        rw [h2, except_bind_ok] at h
        cases h

theorem readTlen_error_kinds (e : Endian) (data : List Nat) (er : BErr)
    (h : readTlen e data = .error er) :
    er = .malformedIndex ∨ er = .structError := by
  unfold readTlen at h
  cases h0 : readTypeNames e data with
  | error er2 =>
    rw [h0, except_bind_error] at h
    injection h with h
    rw [← h]
    exact readTypeNames_error_kinds e data er2 h0
  | ok ts =>
    rw [h0, except_bind_ok] at h
    by_cases h1 : pySlice data ts.off (ts.off + 4) ≠ tlenTag
    · rw [if_pos h1] at h
      injection h with h
      exact Or.inl h.symm
    · rw [if_neg h1] at h
      simp only at h
      cases h2 : iterUnpack16 e
          (pySlice data (ts.off + 4) (ts.off + 4 + 2 * ts.type_count)) with
      | error er2 =>
        rw [h2, except_bind_error] at h
        injection h with h
        rw [← h]
        exact Or.inr (iterUnpack16_error e _ er2 h2)
      | ok sizes =>
        rw [h2, except_bind_ok] at h
        cases h

theorem parseIndexPayload_error_kinds (e : Endian) (data : List Nat) (er : BErr)
    (h : parseIndexPayload e data = .error er) :
    er = .malformedIndex ∨ er = .structError := by
  unfold parseIndexPayload at h
  cases h0 : readTlen e data with
  | error er2 =>
    rw [h0, except_bind_error] at h
    injection h with h
    rw [← h]
    exact readTlen_error_kinds e data er2 h0
  | ok tl =>
    rw [h0, except_bind_ok] at h
    by_cases h1 : pySlice data tl.off (tl.off + 4) ≠ strcTag
    · rw [if_pos h1] at h
      injection h with h
      exact Or.inl h.symm
    · rw [if_neg h1] at h
      cases h2 : unpack32 e data (tl.off + 4) with
      | error er2 =>
        rw [h2, except_bind_error] at h
        injection h with h
        rw [← h]
        exact Or.inr (unpack32_error e data (tl.off + 4) er2 h2)
      | ok sc =>
        rw [h2, except_bind_ok] at h
        cases h3 : parseStructsLoop e data sc.toNat (tl.off + 8) with
        | error er3 =>
          rw [h3, except_bind_error] at h
          injection h with h
          rw [← h]
          exact Or.inr (parseStructsLoop_error e data sc.toNat (tl.off + 8) er3 h3)
        | ok sp =>
          rw [h3, except_bind_ok] at h
          cases h

theorem parseIndexOnHandle_error_kinds (c : ScanCfg) (data : List Nat)
    (pos : Nat) (size : Int) (er : BErr)
    (h : parseIndexOnHandle c data pos size = .error er) :
    er = .malformedIndex ∨ er = .structError := by
  unfold parseIndexOnHandle at h
  cases h0 : parseIndexPayload c.endian (pyRead data pos size).1 with
  | error er2 =>
    rw [h0, except_bind_error] at h
    injection h with h
    rw [← h]
    exact parseIndexPayload_error_kinds c.endian _ er2 h0
  | ok idx =>
    rw [h0, except_bind_ok] at h
    cases h

/-- The fuel `data.length + 1` supplied by `parse_blocks` is always
sufficient: each loop iteration advances the position by at least one full
block header, so fuel exhaustion is unreachable. -/
theorem scanLoop_fuel_sufficient (c : ScanCfg) (data : List Nat) :
    ∀ (fuel pos : Nat) (idx : Option BlendIndex) (acc : List (BlockHead × Nat)),
      1 ≤ fuel → data.length < pos + fuel →
      scanLoop c data fuel pos idx acc ≠ .error .outOfFuel := by
  intro fuel
  induction fuel with
  | zero =>
    intro pos idx acc h1
    exact (Nat.not_succ_le_zero 0 h1).elim
  | succ fuel ih =>
    intro pos idx acc _ hlen h
    rw [scanLoop] at h
    by_cases hpos : pos = data.length
    · rw [if_pos hpos] at h
      cases h
    · rw [if_neg hpos] at h
      cases hub : unpackBlockHead c (pyRead data pos (headerSize c.arch)).1 with
      | none =>
        rw [hub] at h
        cases h
      | some head =>
        rw [hub] at h
        dsimp only at h
        have hbuf : (pyRead data pos ((headerSize c.arch : Nat) : Int)).1.length =
            headerSize c.arch := by
          unfold unpackBlockHead at hub
          by_cases hc : (pyRead data pos ((headerSize c.arch : Nat) : Int)).1.length =
              headerSize c.arch
          · exact hc
          · rw [if_neg hc] at hub
            cases hub
        have hple : pos + headerSize c.arch ≤ data.length := by
          have : (pyRead data pos ((headerSize c.arch : Nat) : Int)).1.length =
              min (headerSize c.arch) (data.length - pos) := by
            unfold pyRead
            rw [if_neg (not_lt.mpr (Int.natCast_nonneg _)), Int.toNat_natCast]
            simp [List.length_take, List.length_drop]
          rw [this] at hbuf
          have hhp := headerSize_pos c.arch
          omega
        have hrd2 : (pyRead data pos ((headerSize c.arch : Nat) : Int)).2 =
            pos + headerSize c.arch :=
          pyRead_snd_nat data pos (headerSize c.arch) hple
        have hsnd_ge : ∀ (p : Nat) (n : Int), p ≤ (pyRead data p n).2 := by
          intro p n
          unfold pyRead
          by_cases hn : n < 0
          · rw [if_pos hn]
            exact Nat.le_max_left _ _
          · rw [if_neg hn]
            exact Nat.le_max_left _ _
        have hhp := headerSize_pos c.arch
        by_cases hdna : head.code = dna1Tag
        · rw [if_pos hdna] at h
          cases hip : parseIndexOnHandle c data
              (pyRead data pos (headerSize c.arch)).2 head.size with
          | error er =>
            rw [hip, except_bind_error] at h
            injection h with h2
            rcases parseIndexOnHandle_error_kinds c data _ head.size er hip with
              h3 | h3 <;> rw [h3] at h2 <;> cases h2
          | ok ip =>
            rw [hip, except_bind_ok] at h
            have hip2 : ip.2 = pos + headerSize c.arch := by
              unfold parseIndexOnHandle at hip
              cases hpp : parseIndexPayload c.endian
                  (pyRead data (pyRead data pos (headerSize c.arch)).2 head.size).1 with
              | error er =>
                rw [hpp, except_bind_error] at hip
                cases hip
              | ok idx2 =>
                rw [hpp, except_bind_ok] at hip
                injection hip with hip
                rw [← hip, hrd2]
            have hge := hsnd_ge ip.2 head.size
            refine ih (pyRead data ip.2 head.size).2 (some ip.1) acc ?_ ?_ h
            · omega
            · omega
        · rw [if_neg hdna] at h
          by_cases hendb : head.code = endbTag
          · rw [if_pos hendb] at h
            cases h
          · rw [if_neg hendb] at h
            have hge := hsnd_ge (pyRead data pos ((headerSize c.arch : Nat) : Int)).2
              head.size
            refine ih _ idx (acc ++ [(head, (pyRead data pos (headerSize c.arch)).2)])
              ?_ ?_ h
            · omega
            · omega

/-- `parse_blocks` itself can therefore never report fuel exhaustion: the
embedded loop's fuel is an artifact of the embedding, not a behavior. -/
theorem parse_blocks_no_fuel_exhaustion (c : ScanCfg) (data : List Nat) :
    parse_blocks c data ≠ .error .outOfFuel := by
  intro h
  unfold parse_blocks at h
  cases hs : scanLoop c data (data.length + 1) 12 none [] with
  | error er =>
    rw [hs, except_bind_error] at h
    injection h with h
    rw [h] at hs
    exact scanLoop_fuel_sufficient c data (data.length + 1) 12 none []
      (by omega) (by omega) hs
  | ok s =>
    rw [hs, except_bind_ok] at h
    cases hidx : s.idx with
    | none =>
      rw [hidx] at h
      dsimp only at h
      injection h with h
      cases h
    | some b =>
      rw [hidx] at h
      dsimp only at h
      by_cases hef : s.endFound
      · rw [if_pos hef] at h
        cases h
      · rw [if_neg hef] at h
        injection h with h
        cases h

end Loader
